import Mathlib

/-!
Shallow embedding of the finance permission system
(repository `finance-permission-system`).

Tables are embedded as Lean lists of rows (in insertion order), SQL
queries over them as list filters/maps, Python dict/set comprehensions as
keep-first deduplicating list operations, and the Python loops as
structural recursions (fuel-indexed where the source loop is not
obviously terminating).  Floating point amounts are modelled as naturals:
no claim depends on float rounding, amounts are only compared.
-/

namespace FinancePerm

/-- A row of the `users` table / `main.py` class `User`:
`id, name, role, department, parent_id` (nullable). -/
structure MUser where
  id : Nat
  name : String
  role : String
  department : String
  parent_id : Option Nat
  deriving DecidableEq, Repr

/-- A row of the `financial_funds` table / `main.py` class `FinancialFund`:
`fund_id, handle_by, order_id, customer_id, amount`. -/
structure Fund where
  fund_id : Nat
  handle_by : Nat
  order_id : Nat
  customer_id : Nat
  amount : Nat
  deriving DecidableEq, Repr

/-- A row of the `orders` table / `main.py` class `Order`. -/
structure MOrder where
  order_id : Nat
  user_id : Nat
  deriving DecidableEq, Repr

/-- A row of the `customers` table / `main.py` class `Customer`. -/
structure MCustomer where
  customer_id : Nat
  admin_user_id : Nat
  deriving DecidableEq, Repr

/-- A row of the MySQL `user_hierarchy` table:
`(user_id, subordinate_id)`. -/
structure HierRow where
  user_id : Nat
  subordinate_id : Nat
  deriving DecidableEq, Repr

/-! ### Generic helpers: keep-first deduplication and fixed-size chunking -/

/-- Keep-first deduplication of a list of naturals (a Python
`set`/`{... for ...}` comprehension built by scanning rows in order). -/
def listDedupNat : List Nat → List Nat → List Nat
  | [], _ => []
  | x :: xs, seen =>
    if x ∈ seen then listDedupNat xs seen
    else x :: listDedupNat xs (x :: seen)

/-- Keep-first deduplication of fund rows keyed by `fund_id` (the Python
`unique_funds` dict in `high_concurrency_pagination.py` and MySQL
`INSERT IGNORE` into a table whose primary key is `fund_id`). -/
def dedupByKey (key : Fund → Nat) : List Fund → List Nat → List Fund
  | [], _ => []
  | f :: fs, seen =>
    if key f ∈ seen then dedupByKey key fs seen
    else f :: dedupByKey key fs (key f :: seen)

/-- Auxiliary chunking loop, fuelled so that it is structural recursion;
`chunksOf` always supplies enough fuel. -/
def chunksOfAux (n : Nat) : Nat → List α → List (List α)
  | 0, _ => []
  | _, [] => []
  | fuel + 1, l => l.take n :: chunksOfAux n fuel (l.drop n)

/-- Partition a list into consecutive chunks of size `n` (the
`for i in range(0, len(ids), batch_size)` slicing loops of the source). -/
def chunksOf (n : Nat) (l : List α) : List (List α) :=
  chunksOfAux n l.length l

/-- Stable sort of fund rows by a natural-number key, matching Python's
stable `list.sort(key=..., reverse=...)` and SQL `ORDER BY` (the model
fixes the tie order that SQL leaves unspecified). -/
def pySortBy (key : Fund → Nat) (desc : Bool) (l : List Fund) : List Fund :=
  List.insertionSort (fun a b => if desc then key b ≤ key a else key a ≤ key b) l

theorem pySortBy_perm (key : Fund → Nat) (desc : Bool) (l : List Fund) :
    List.Perm (pySortBy key desc l) l :=
  List.perm_insertionSort _ l

theorem mem_pySortBy {key : Fund → Nat} {desc : Bool} {l : List Fund} {f : Fund} :
    f ∈ pySortBy key desc l ↔ f ∈ l :=
  (pySortBy_perm key desc l).mem_iff

/-! helper lemmas about `listDedupNat`, `dedupByKey`, `chunksOf` -/

theorem mem_of_mem_dedupByKey {key : Fund → Nat} {l : List Fund} {seen : List Nat}
    {f : Fund} (h : f ∈ dedupByKey key l seen) : f ∈ l := by
  induction l generalizing seen with
  | nil => simp [dedupByKey] at h
  | cons g gs ih =>
    simp only [dedupByKey] at h
    by_cases hg : key g ∈ seen
    · simp only [hg, if_pos] at h
      exact List.mem_cons_of_mem _ (ih h)
    · simp only [hg, if_neg, not_false_iff, List.mem_cons] at h
      rcases h with h | h
      · exact h ▸ List.mem_cons_self _ _
      · exact List.mem_cons_of_mem _ (ih h)

theorem key_mem_dedupByKey {key : Fund → Nat} {l : List Fund} {seen : List Nat}
    {k : Nat} :
    k ∈ (dedupByKey key l seen).map key ↔ k ∈ l.map key ∧ k ∉ seen := by
  induction l generalizing seen with
  | nil => simp [dedupByKey]
  | cons g gs ih =>
    simp only [dedupByKey]
    by_cases hg : key g ∈ seen
    · simp only [hg, if_pos, List.map_cons, List.mem_cons, ih]
      constructor
      · rintro ⟨h1, h2⟩
        exact ⟨Or.inr h1, h2⟩
      · rintro ⟨h1 | h1, h2⟩
        · exact absurd (h1 ▸ hg) h2
        · exact ⟨h1, h2⟩
    · simp only [hg, if_neg, not_false_iff, List.map_cons, List.mem_cons, ih,
        List.mem_cons]
      constructor
      · rintro (h | ⟨h1, h2⟩)
        · constructor
          · exact Or.inl h
          · intro hk
            exact hg (h ▸ hk)
        · constructor
          · exact Or.inr h1
          · intro hk
            exact h2 (Or.inr hk)
      · rintro ⟨h1 | h1, h2⟩
        · exact Or.inl h1
        · by_cases hgk : k = key g
          · exact Or.inl hgk
          · refine Or.inr ⟨h1, ?_⟩
            intro hk
            rcases hk with hk | hk
            · exact hgk hk
            · exact h2 hk

theorem nodup_dedupByKey {key : Fund → Nat} (l : List Fund) (seen : List Nat) :
    ((dedupByKey key l seen).map key).Nodup := by
  induction l generalizing seen with
  | nil => simp [dedupByKey]
  | cons g gs ih =>
    simp only [dedupByKey]
    by_cases hg : key g ∈ seen
    · simpa [hg] using ih seen
    · simp only [hg, if_neg, not_false_iff, List.map_cons, List.nodup_cons]
      refine ⟨?_, ih _⟩
      intro hmem
      have := key_mem_dedupByKey.1 hmem
      exact this.2 (List.mem_cons_self _ _)

theorem exists_mem_dedupByKey {key : Fund → Nat} {l : List Fund} {seen : List Nat}
    {f : Fund} (hf : f ∈ l) (hseen : key f ∉ seen) :
    ∃ g ∈ dedupByKey key l seen, key g = key f := by
  have hk : key f ∈ (dedupByKey key l seen).map key :=
    key_mem_dedupByKey.2 ⟨List.mem_map_of_mem key hf, hseen⟩
  rcases List.mem_map.1 hk with ⟨g, hg, hgk⟩
  exact ⟨g, hg, hgk⟩

theorem chunksOfAux_flatten (n : Nat) (hn : 0 < n) :
    ∀ (fuel : Nat) (l : List α), l.length ≤ fuel →
      (chunksOfAux n fuel l).flatten = l := by
  intro fuel
  induction fuel with
  | zero =>
    intro l hl
    have : l = [] := List.eq_nil_of_length_eq_zero (Nat.le_zero.1 hl)
    simp [this, chunksOfAux]
  | succ m ih =>
    intro l hl
    cases l with
    | nil => simp [chunksOfAux]
    | cons x xs =>
      simp only [chunksOfAux, List.flatten_cons]
      have hdrop : ((x :: xs).drop n).length ≤ m := by
        simp only [List.length_drop, List.length_cons]
        simp only [List.length_cons] at hl
        omega
      rw [ih ((x :: xs).drop n) hdrop]
      exact List.take_append_drop n (x :: xs)

theorem chunksOf_flatten (n : Nat) (hn : 0 < n) (l : List α) :
    (chunksOf n l).flatten = l :=
  chunksOfAux_flatten n hn l.length l (Nat.le_refl _)

theorem chunksOfAux_length (n : Nat) (hn : 0 < n) :
    ∀ (fuel : Nat) (l : List α), l.length ≤ fuel →
      (chunksOfAux n fuel l).length = (l.length + n - 1) / n := by
  intro fuel
  induction fuel with
  | zero =>
    intro l hl
    have h0 : l = [] := List.eq_nil_of_length_eq_zero (Nat.le_zero.1 hl)
    subst h0
    have hz : (n - 1) / n = 0 := Nat.div_eq_of_lt (by omega)
    simp [chunksOfAux, hz]
  | succ m ih =>
    intro l hl
    cases l with
    | nil =>
      have hz : (n - 1) / n = 0 := Nat.div_eq_of_lt (by omega)
      simp [chunksOfAux, hz]
    | cons x xs =>
      simp only [chunksOfAux, List.length_cons]
      have hdrop : ((x :: xs).drop n).length ≤ m := by
        simp only [List.length_drop, List.length_cons]
        simp only [List.length_cons] at hl
        omega
      rw [ih ((x :: xs).drop n) hdrop]
      simp only [List.length_drop, List.length_cons]
      rcases Nat.lt_or_ge (xs.length + 1) n with hlt | hge
      · have h1 : xs.length + 1 - n = 0 := by omega
        have h2 : (xs.length + n) / n = 1 :=
          Nat.div_eq_of_lt_le (by omega) (by omega)
        have hz : (n - 1) / n = 0 := Nat.div_eq_of_lt (by omega)
        simp [h1, h2, hz]
      · have h4 : xs.length + 1 + n - 1 = (xs.length + 1 - n + n - 1) + n := by
          omega
        rw [h4, Nat.add_div_right _ hn]

theorem chunksOf_length (n : Nat) (hn : 0 < n) (l : List α) :
    (chunksOf n l).length = (l.length + n - 1) / n :=
  chunksOfAux_length n hn l.length l (Nat.le_refl _)

/-! ## `main.py`: in-memory `PermissionService`, `FinancialService`, `ApiGateway`

The `users` dict is modelled as a list in insertion order (Python dicts
iterate in insertion order).  Python sets of ids are modelled as
keep-first deduplicated lists; the theorems below depend on them only
through membership. -/

/-- The four base users built by `PermissionService.__init__`. -/
def mainUsers : List MUser :=
  [⟨1, "超级管理员", "admin", "总部", none⟩,
   ⟨2, "财务主管", "supervisor", "华东区", some 1⟩,
   ⟨3, "财务专员", "staff", "华东区", some 2⟩,
   ⟨4, "财务专员", "staff", "华南区", some 1⟩]

/-- The three funds built by `PermissionService.__init__`. -/
def mainFunds : List Fund :=
  [⟨1001, 3, 2001, 3001, 50000⟩,
   ⟨1002, 2, 2002, 3002, 80000⟩,
   ⟨1003, 3, 2003, 3003, 60000⟩]

/-- The orders built by `PermissionService.__init__`. -/
def mainOrders : List MOrder := [⟨2001, 3⟩, ⟨2002, 2⟩, ⟨2003, 3⟩]

/-- The customers built by `PermissionService.__init__`. -/
def mainCustomers : List MCustomer := [⟨3001, 3⟩, ⟨3002, 2⟩, ⟨3003, 3⟩]

/-- Insert an id into a Python-set modelled as a duplicate-free list. -/
def insertIdSet (x : Nat) (l : List Nat) : List Nat :=
  if x ∈ l then l else l ++ [x]

/-- The ids pushed onto the stack when `current` is popped in
`PermissionService.get_subordinates`: every user whose `parent_id` equals
`current`, in dict order.  Python appends to the stack's end and pops from
the end, so with the stack's top modelled at the head the children are
pushed reversed. -/
def childrenOf (users : List MUser) (current : Nat) : List Nat :=
  (users.filter (fun u => u.parent_id = some current)).map (·.id)

/-- Fuelled model of the `while stack:` loop of
`PermissionService.get_subordinates` (`main.py` lines 60-71).  The loop
has NO visited check: a popped id's children are pushed unconditionally.
Returns `none` when the fuel runs out with the stack still non-empty,
i.e. when the loop has not terminated within `fuel` iterations. -/
def subRun (users : List MUser) : Nat → List Nat → List Nat → Option (List Nat)
  | _, subs, [] => some subs
  | 0, _, _ :: _ => none
  | fuel + 1, subs, current :: rest =>
    subRun users fuel (insertIdSet current subs)
      ((childrenOf users current).reverse ++ rest)

/-- `PermissionService.get_subordinates(user_id)` run with `fuel` loop
iterations, starting from the singleton stack `[user_id]`. -/
def get_subordinates (users : List MUser) (fuel : Nat) (user_id : Nat) :
    Option (List Nat) :=
  subRun users fuel [] [user_id]

/-- The scope dict produced by
`PermissionService.get_accessible_data_scope`. -/
structure MScope where
  handle_by : List Nat
  order_ids : List Nat
  customer_ids : List Nat
  deriving DecidableEq, Repr

/-- `PermissionService.get_accessible_data_scope` (`main.py` lines 73-95).
Only the supervisor branch runs the (fuelled) subordinate traversal, so
only that branch can fail to produce a result.  The supervisor branch
indexes `self.users[o.user_id]`, which in Python raises `KeyError` for an
owner id absent from the dict; on the repository's data every owner is
present, and the model requires membership in `users` alongside the
subordinate test. -/
def get_accessible_data_scope (users : List MUser) (orders : List MOrder)
    (customers : List MCustomer) (fuel : Nat) (u : MUser) : Option MScope :=
  if u.role = "admin" then
    some { handle_by := listDedupNat (users.map (·.id)) [],
           order_ids := listDedupNat (orders.map (·.order_id)) [],
           customer_ids := listDedupNat (customers.map (·.customer_id)) [] }
  else if u.role = "supervisor" then
    (get_subordinates users fuel u.id).map fun subs =>
      { handle_by := listDedupNat
          ((users.filter (fun v => v.id ∈ subs)).map (·.id)) [],
        order_ids := listDedupNat
          ((orders.filter (fun o =>
            (users.any (fun v => v.id = o.user_id)) ∧ o.user_id ∈ subs)).map
            (·.order_id)) [],
        customer_ids := listDedupNat
          ((customers.filter (fun c =>
            (users.any (fun v => v.id = c.admin_user_id)) ∧
              c.admin_user_id ∈ subs)).map (·.customer_id)) [] }
  else if u.role = "staff" then
    some { handle_by := [u.id],
           order_ids := listDedupNat
             ((orders.filter (fun o => o.user_id = u.id)).map (·.order_id)) [],
           customer_ids := listDedupNat
             ((customers.filter (fun c => c.admin_user_id = u.id)).map
               (·.customer_id)) [] }
  else
    some { handle_by := [], order_ids := [], customer_ids := [] }

/-- `FinancialService.get_funds` (`main.py` lines 102-112): filter the
fund list by the three scope sets, OR-combined. -/
def fin_get_funds (users : List MUser) (orders : List MOrder)
    (customers : List MCustomer) (funds : List Fund) (fuel : Nat) (u : MUser) :
    Option (List Fund) :=
  (get_accessible_data_scope users orders customers fuel u).map fun scope =>
    funds.filter fun f =>
      f.handle_by ∈ scope.handle_by ∨ f.order_id ∈ scope.order_ids ∨
        f.customer_id ∈ scope.customer_ids

/-- The super admin, `self.permission_svc.users[1]`. -/
def mainUser1 : MUser := ⟨1, "超级管理员", "admin", "总部", none⟩

/-- `ApiGateway.authenticate(role)` (`main.py` lines 122-127):
`next((u for u in users.values() if u.role == role), users[1])` — the
first user with the requested role, defaulting to the super admin. -/
def api_authenticate (role : String) : MUser :=
  (mainUsers.find? (fun u => u.role = role)).getD mainUser1

/-- `ApiGateway.get_funds()` for the in-memory gateway, after
`authenticate(role)`. -/
def api_get_funds (role : String) (fuel : Nat) : Option (List Fund) :=
  fin_get_funds mainUsers mainOrders mainCustomers mainFunds fuel
    (api_authenticate role)

/-! ## `database.py`: SQLite-backed services

The database state is the four tables; SQL `SELECT ... WHERE` queries
become list filters in row order, `LIMIT n` becomes `List.take n`, and
set comprehensions over the fetched rows become `listDedupNat`. -/

/-- The four tables of `finance_system.db`. -/
structure DbState where
  users : List MUser
  orders : List MOrder
  customers : List MCustomer
  funds : List Fund
  deriving Repr

/-- One recursion level of the `WITH RECURSIVE subordinates(id, depth)`
CTE of `DatabasePermissionService.get_subordinates`: the children of all
ids produced at the previous depth (`u.parent_id = s.id`), deduplicated
within the level (`UNION` removes duplicate `(id, depth)` rows). -/
def cteLevel (users : List MUser) (prev : List Nat) : List Nat :=
  listDedupNat
    ((users.filter (fun u => match u.parent_id with
      | some p => p ∈ prev
      | none => false)).map (·.id)) []

/-- `DatabasePermissionService.get_subordinates` (`database.py` lines
329-353): the recursive CTE seeded with `(user_id, 0)`, recursion bounded
by `s.depth < 3` (so rows have depth 0..3), `LIMIT 1000` over the
breadth-first row stream, projected to ids, fetched into a Python set,
and `user_id` always added afterwards. -/
def db_get_subordinates (users : List MUser) (user_id : Nat) : List Nat :=
  let l0 := [user_id]
  let l1 := cteLevel users l0
  let l2 := cteLevel users l1
  let l3 := cteLevel users l2
  let ids := listDedupNat ((l0 ++ l1 ++ l2 ++ l3).take 1000) []
  insertIdSet user_id ids

/-- The scope dict of `DatabasePermissionService.get_accessible_data_scope`,
including the admin marker `scope["is_admin"]`. -/
structure DbScope where
  is_admin : Bool
  handle_by : List Nat
  order_ids : List Nat
  customer_ids : List Nat
  deriving DecidableEq, Repr

/-- `DatabasePermissionService.get_accessible_data_scope` (`database.py`
lines 378-449).  Admin: sample 100 ids of each table and set `is_admin`.
Supervisor: depth-limited subordinates; orders/customers joined against
the subordinate set, each `LIMIT 1000`.  Staff: own orders/customers,
each `LIMIT 10000`. -/
def db_get_accessible_data_scope (st : DbState) (u : MUser) : DbScope :=
  if u.role = "admin" then
    { is_admin := true,
      handle_by := listDedupNat ((st.users.map (·.id)).take 100) [],
      order_ids := listDedupNat ((st.orders.map (·.order_id)).take 100) [],
      customer_ids :=
        listDedupNat ((st.customers.map (·.customer_id)).take 100) [] }
  else if u.role = "supervisor" then
    let subs := db_get_subordinates st.users u.id
    { is_admin := false,
      handle_by := subs,
      order_ids := listDedupNat
        (((st.orders.filter (fun o =>
            (st.users.any (fun v => v.id = o.user_id)) ∧ o.user_id ∈ subs)).map
          (·.order_id)).take 1000) [],
      customer_ids := listDedupNat
        (((st.customers.filter (fun c =>
            (st.users.any (fun v => v.id = c.admin_user_id)) ∧
              c.admin_user_id ∈ subs)).map (·.customer_id)).take 1000) [] }
  else if u.role = "staff" then
    { is_admin := false,
      handle_by := [u.id],
      order_ids := listDedupNat
        (((st.orders.filter (fun o => o.user_id = u.id)).map
          (·.order_id)).take 10000) [],
      customer_ids := listDedupNat
        (((st.customers.filter (fun c => c.admin_user_id = u.id)).map
          (·.customer_id)).take 10000) [] }
  else
    { is_admin := false, handle_by := [], order_ids := [], customer_ids := [] }

/-- The loop body of `execute_chunked_query` inside
`DatabaseFinancialService.get_funds`: per chunk one
`SELECT ... WHERE field IN (chunk) LIMIT 1000`, results appended and the
loop broken once 1000 rows have accumulated. -/
def ecqGo (funds : List Fund) (field : Fund → Nat) :
    List (List Nat) → List Fund → List Fund
  | [], acc => acc
  | ch :: rest, acc =>
    let acc' := acc ++ (funds.filter (fun f => field f ∈ ch)).take 1000
    if 1000 ≤ acc'.length then acc' else ecqGo funds field rest acc'

/-- `execute_chunked_query(field_name, id_list, max_chunk_size)`
(`database.py` lines 480-490). -/
def execute_chunked_query (funds : List Fund) (field : Fund → Nat)
    (id_list : List Nat) (max_chunk_size : Nat) : List Fund :=
  ecqGo funds field (chunksOf max_chunk_size id_list) []

/-- The result-assembly loop of `DatabaseFinancialService.get_funds`
(lines 511-524): scan the first 2000 sorted rows, keep the first
occurrence of each `fund_id`, and stop as soon as 1000 unique funds have
been collected (the row reaching the cap is kept, then the loop breaks). -/
def selectUniqueFunds : List Fund → List Nat → Nat → List Fund
  | [], _, _ => []
  | f :: rest, seen, cnt =>
    if f.fund_id ∈ seen then selectUniqueFunds rest seen cnt
    else if 1000 ≤ cnt + 1 then [f]
    else f :: selectUniqueFunds rest (f.fund_id :: seen) (cnt + 1)

/-- `DatabaseFinancialService.get_funds` (`database.py` lines 458-527).
Admin: `SELECT ... LIMIT 1000` over all funds.  Otherwise: chunked
queries per dimension (chunk size 500), each later dimension only queried
while fewer than 1000 rows have accumulated; then sort by `fund_id`,
truncate to 2000 rows and keep at most 1000 unique funds. -/
def db_get_funds (st : DbState) (u : MUser) : List Fund :=
  let scope := db_get_accessible_data_scope st u
  let all_results :=
    if scope.is_admin then st.funds.take 1000
    else
      let r1 := if scope.handle_by ≠ [] then
          execute_chunked_query st.funds (·.handle_by) scope.handle_by 500
        else []
      let r2 := if r1.length < 1000 ∧ scope.order_ids ≠ [] then
          execute_chunked_query st.funds (·.order_id) scope.order_ids 500
        else []
      let r3 := if r1.length + r2.length < 1000 ∧ scope.customer_ids ≠ [] then
          execute_chunked_query st.funds (·.customer_id) scope.customer_ids 500
        else []
      r1 ++ r2 ++ r3
  selectUniqueFunds ((pySortBy (·.fund_id) false all_results).take 2000) [] 0

/-- `DatabaseApiGateway.authenticate(role)` (`database.py` lines 537-562):
first a base user (id ≤ 4) with the role, then any user with the role,
else the fallback `SELECT ... WHERE id = 1` (the super admin row). -/
def db_authenticate (users : List MUser) (role : String) : Option MUser :=
  match users.find? (fun u => u.role = role ∧ u.id ≤ 4) with
  | some u => some u
  | none =>
    match users.find? (fun u => u.role = role) with
    | some u => some u
    | none => users.find? (fun u => u.id = 1)

/-! ## Spec-side authorization (refinement reference)

Modelled from the spec: "a user may see any record handled by, ordered
by, or administered by themselves or any of their transitive
subordinates" (spec §1), with the transitive closure of "reports-to"
edges (spec §4.1, glossary).  The source consistently exempts admins
("Admin can access everything", `database.py` line 386), which the
spec-side predicate mirrors. -/

/-- Modelled from the spec: `b` is in the subordinate transitive closure
of `a` — reflexive, or `b`'s `parent_id` chain reaches `a`. -/
inductive ReportsTo (users : List MUser) : Nat → Nat → Prop
  | refl (a : Nat) : ReportsTo users a a
  | step {a b c : Nat} : ReportsTo users a b →
      (∃ w ∈ users, w.id = c ∧ w.parent_id = some b) → ReportsTo users a c

/-- Modelled from the spec: the fund `f` lies in user `u`'s authorization
scope — its handler, order owner, or customer administrator is `u` or a
transitive subordinate of `u` (admins see everything). -/
def specAuthorized (st : DbState) (u : MUser) (f : Fund) : Prop :=
  u.role = "admin" ∨
    ReportsTo st.users u.id f.handle_by ∨
    (∃ o ∈ st.orders, o.order_id = f.order_id ∧
      ReportsTo st.users u.id o.user_id) ∨
    (∃ c ∈ st.customers, c.customer_id = f.customer_id ∧
      ReportsTo st.users u.id c.admin_user_id)

/-! ## `high_concurrency_pagination.py`: parallel batched union -/

/-- The permissions dict built by `get_user_permissions`. -/
structure Permissions where
  subordinate_ids : List Nat
  order_ids : List Nat
  customer_ids : List Nat
  deriving DecidableEq, Repr

/-- `get_subordinate_ids` + the `if supervisor_id not in ...: append`
step shared by `get_user_permissions`, `accurate_pagination_service`,
`smart_pagination_service` and `test_pagination_approaches`: the
`user_hierarchy` rows for the supervisor, with the supervisor id appended
when absent. -/
def subordinate_ids_with_self (hier : List HierRow) (supervisor_id : Nat) :
    List Nat :=
  let l := (hier.filter (fun r => r.user_id = supervisor_id)).map
    (·.subordinate_id)
  if supervisor_id ∈ l then l else l ++ [supervisor_id]

/-- `get_user_permissions` (`high_concurrency_pagination.py` lines
133-181), cache aside: subordinates, then the order and customer ids
owned/administered by any subordinate (single `IN` queries; the
`if subordinate_ids:` guards are vacuous since the list always contains
the supervisor). -/
def get_user_permissions (hier : List HierRow) (orders : List MOrder)
    (customers : List MCustomer) (supervisor_id : Nat) : Permissions :=
  let subs := subordinate_ids_with_self hier supervisor_id
  { subordinate_ids := subs,
    order_ids :=
      if subs ≠ [] then
        (orders.filter (fun o => o.user_id ∈ subs)).map (·.order_id)
      else [],
    customer_ids :=
      if subs ≠ [] then
        (customers.filter (fun c => c.admin_user_id ∈ subs)).map
          (·.customer_id)
      else [] }

/-- `execute_batch_query(query, params, batch_size)`
(`high_concurrency_pagination.py` lines 183-205) as used on the
`financial_funds` table: one `WHERE field IN (chunk)` query per chunk of
`params`, results concatenated. -/
def execute_batch_query (funds : List Fund) (field : Fund → Nat)
    (params : List Nat) (batch_size : Nat) : List Fund :=
  if params = [] then []
  else ((chunksOf batch_size params).map
    (fun b => funds.filter (fun f => field f ∈ b))).flatten

/-- `get_financial_funds_parallel` (`high_concurrency_pagination.py`
lines 207-258) on the success path: the three dimension queries (each
submitted only when its id list is non-empty), concatenated in
submission order and deduplicated by `fund_id` keeping the first
occurrence (the `unique_funds` dict). -/
def get_financial_funds_parallel (funds : List Fund)
    (handle_by_ids order_ids customer_ids : List Nat) : List Fund :=
  let q1 := if handle_by_ids ≠ [] then
      execute_batch_query funds (·.handle_by) handle_by_ids 1000
    else []
  let q2 := if order_ids ≠ [] then
      execute_batch_query funds (·.order_id) order_ids 1000
    else []
  let q3 := if customer_ids ≠ [] then
      execute_batch_query funds (·.customer_id) customer_ids 1000
    else []
  dedupByKey (·.fund_id) (q1 ++ q2 ++ q3) []

/-- The future-collection loop of `get_financial_funds_parallel` (lines
242-249) with each future's outcome made explicit: `future.result(10)`
either returns rows (`Except.ok`) or raises (`Except.error`); a raising
future is caught, logged and skipped, and the loop continues with the
remaining futures. -/
def collectFutures : List (Except String (List Fund)) → List Fund
  | [] => []
  | Except.ok r :: rest => r ++ collectFutures rest
  | Except.error _ :: rest => collectFutures rest

/-- `get_financial_funds_parallel` with per-dimension query outcomes
supplied (failure injection for the partial-failure analysis): collect
the successful futures' rows and deduplicate by `fund_id`.  The function
always returns a plain fund list — no error is propagated. -/
def get_financial_funds_parallel_outcomes
    (outcomes : List (Except String (List Fund))) : List Fund :=
  dedupByKey (·.fund_id) (collectFutures outcomes) []

/-- The sort key selected by the `sort_by` string dispatch of
`get_paginated_financial_data` (lines 285-292): `fund_id`, `amount` or
`handle_by`, anything else defaulting to `fund_id`. -/
def sortKeyOf (sort_by : String) (f : Fund) : Nat :=
  if sort_by = "fund_id" then f.fund_id
  else if sort_by = "amount" then f.amount
  else if sort_by = "handle_by" then f.handle_by
  else f.fund_id

/-- The page structure returned by the pagination services (`data` is
modelled as the selected fund rows: the Python code decorates each row
with the handler's name and department via `user_info.get(...)` with a
fallback entry, a one-to-one decoration that preserves `fund_id`s). -/
structure PageOut where
  items : List Fund
  total_count : Nat
  total_pages : Nat
  has_next : Bool
  has_prev : Bool
  deriving DecidableEq, Repr

/-- `get_paginated_financial_data` (`high_concurrency_pagination.py`
lines 260-368): permissions, parallel union, in-memory stable sort
(descending when `sort_order` upper-cases to `"DESC"`), then the slice
`[(page-1)*page_size, page*page_size)`. -/
def get_paginated_financial_data (hier : List HierRow) (orders : List MOrder)
    (customers : List MCustomer) (funds : List Fund) (supervisor_id : Nat)
    (page page_size : Nat) (sort_by sort_order : String) : PageOut :=
  let perms := get_user_permissions hier orders customers supervisor_id
  let all_funds := get_financial_funds_parallel funds perms.subordinate_ids
    perms.order_ids perms.customer_ids
  let sorted := pySortBy (sortKeyOf sort_by) (sort_order.toUpper = "DESC")
    all_funds
  let total_count := sorted.length
  let page_funds := (sorted.drop ((page - 1) * page_size)).take page_size
  let total_pages :=
    if 0 < total_count then (total_count + page_size - 1) / page_size else 1
  { items := page_funds,
    total_count := total_count,
    total_pages := total_pages,
    has_next := page < total_pages,
    has_prev := 1 < page }

/-! ## `optimized_cursor_pagination.py`: smart pagination with estimated
totals -/

/-- Whether the handler of `f` has a row in `users` (the inner
`JOIN users u ON f.handle_by = u.id`). -/
def handlerJoins (users : List MUser) (f : Fund) : Prop :=
  ∃ v ∈ users, v.id = f.handle_by

instance (users : List MUser) (f : Fund) : Decidable (handlerJoins users f) :=
  List.decidableBEx _ users

/-- The OR-combined dimension predicate used by the cursor/batched
queries: membership in whichever of the three id lists are non-empty
(membership in an empty list is vacuously false, so the `if ...:`
condition-building of the source collapses to a plain disjunction). -/
def dimMatch (handle_by_ids order_ids customer_ids : List Nat) (f : Fund) :
    Prop :=
  f.handle_by ∈ handle_by_ids ∨ f.order_id ∈ order_ids ∨
    f.customer_id ∈ customer_ids

instance (h o c : List Nat) (f : Fund) : Decidable (dimMatch h o c f) := by
  unfold dimMatch; infer_instance

/-- `estimate_total_count` (`optimized_cursor_pagination.py` lines
50-107): sample the first `min(100, len(h), len(o), len(c))` ids of each
dimension, count the funds matching the sampled union, and scale the
count by `total_ids / sample_ids`.  The Python scaling
`int(sample_count * (total_ids / sample_ids))` uses float division; it is
modelled as exact natural division `sample_count * total_ids / sample_ids`
(equal for the magnitudes exercised here). -/
def estimate_total_count (funds : List Fund)
    (handle_by_ids order_ids customer_ids : List Nat) : Nat :=
  let sample_size := min 100 (min handle_by_ids.length
    (min order_ids.length customer_ids.length))
  if sample_size = 0 then 0
  else
    let sh := handle_by_ids.take sample_size
    let so := order_ids.take sample_size
    let sc := customer_ids.take sample_size
    let sample_count := (funds.filter (fun f => dimMatch sh so sc f)).length
    let total_ids :=
      handle_by_ids.length + order_ids.length + customer_ids.length
    let sample_ids := sh.length + so.length + sc.length
    if 0 < sample_ids then sample_count * total_ids / sample_ids else 0

/-- The per-batch loop of `get_financial_funds_optimized_pagination`
(lines 142-224), processing the remaining batch indices with the
accumulated rows and the running skip offset.  Each batch takes the
`[idx*batch, idx*batch+batch)` slice of the three id lists; whole batches
before `offset` are counted and skipped, then rows are fetched sorted
with `LIMIT remaining OFFSET skip` (inner-joined with `users`), and the
loop breaks once `page_size` rows are assembled. -/
def optBatches (users : List MUser) (funds : List Fund)
    (h o c : List Nat) (sort_by : String) (desc : Bool)
    (offset page_size batch_size : Nat) :
    List Nat → List Fund → Nat → List Fund
  | [], acc, _ => acc
  | bIdx :: rest, acc, cur_offset =>
    let bh := (h.drop (bIdx * batch_size)).take batch_size
    let bo := (o.drop (bIdx * batch_size)).take batch_size
    let bc := (c.drop (bIdx * batch_size)).take batch_size
    if bh = [] ∧ bo = [] ∧ bc = [] then
      optBatches users funds h o c sort_by desc offset page_size batch_size
        rest acc cur_offset
    else
      let batch_count := (funds.filter (fun f => dimMatch bh bo bc f)).length
      if cur_offset < offset ∧ cur_offset + batch_count ≤ offset then
        optBatches users funds h o c sort_by desc offset page_size batch_size
          rest acc (cur_offset + batch_count)
      else
        let skip := if cur_offset < offset then offset - cur_offset else 0
        let cur_offset' := if cur_offset < offset then offset else cur_offset
        let remaining := page_size - acc.length
        if remaining = 0 then acc
        else
          let rows := ((pySortBy (sortKeyOf sort_by) desc
            (funds.filter (fun f =>
              dimMatch bh bo bc f ∧ handlerJoins users f))).drop skip).take
            remaining
          let acc' := acc ++ rows
          if page_size ≤ acc'.length then acc'.take page_size
          else optBatches users funds h o c sort_by desc offset page_size
            batch_size rest acc' cur_offset'

/-- `get_financial_funds_optimized_pagination`
(`optimized_cursor_pagination.py` lines 109-226): batch size 500 for the
first ten pages and 1000 after, the total only estimated on page 1
(`total_count = 0` otherwise), and the batched skip/fetch loop over
`ceil(max_ids / batch_size)` batches. -/
def get_financial_funds_optimized_pagination (users : List MUser)
    (funds : List Fund) (h o c : List Nat) (page page_size : Nat)
    (sort_by : String) (desc : Bool) (estimate_total : Bool) :
    List Fund × Nat :=
  let batch_size := if page ≤ 10 then 500 else 1000
  let offset := (page - 1) * page_size
  let total_count :=
    if page = 1 ∧ estimate_total then estimate_total_count funds h o c else 0
  let max_ids := max h.length (max o.length c.length)
  let total_batches :=
    if 0 < max_ids then (max_ids + batch_size - 1) / batch_size else 0
  (optBatches users funds h o c sort_by desc offset page_size batch_size
    (List.range total_batches) [] 0, total_count)

/-- `smart_pagination_service` (`optimized_cursor_pagination.py` lines
228-305): permission ids, then the optimized pagination with
`estimate_total = (page == 1)`, then the pagination envelope. -/
def smart_pagination_service (hier : List HierRow) (users : List MUser)
    (orders : List MOrder) (customers : List MCustomer) (funds : List Fund)
    (supervisor_id page page_size : Nat) (sort_by : String) (desc : Bool) :
    PageOut :=
  let subs := subordinate_ids_with_self hier supervisor_id
  let order_ids := (orders.filter (fun o => o.user_id ∈ subs)).map
    (·.order_id)
  let customer_ids := (customers.filter (fun c => c.admin_user_id ∈ subs)).map
    (·.customer_id)
  let rt := get_financial_funds_optimized_pagination users funds subs
    order_ids customer_ids page page_size sort_by desc (page = 1)
  let total_count := rt.2
  let total_pages :=
    if 0 < total_count then (total_count + page_size - 1) / page_size else 1
  { items := rt.1,
    total_count := total_count,
    total_pages := total_pages,
    has_next := page < total_pages,
    has_prev := 1 < page }

/-! ## `accurate_pagination.py`: temporary-table exact pagination -/

/-- `create_temp_permission_table` (`accurate_pagination.py` lines
50-119): for each dimension in turn, `INSERT IGNORE ... SELECT ... WHERE
field IN (batch)` over 1000-sized batches of the id list into a table
whose primary key is `fund_id` — i.e. the keep-first deduplication of the
concatenated chunked dimension queries. -/
def create_temp_permission_table (funds : List Fund)
    (handle_by_ids order_ids customer_ids : List Nat) : List Fund :=
  dedupByKey (·.fund_id)
    (execute_batch_query funds (·.handle_by) handle_by_ids 1000 ++
     execute_batch_query funds (·.order_id) order_ids 1000 ++
     execute_batch_query funds (·.customer_id) customer_ids 1000) []

/-- `get_accurate_pagination` (`accurate_pagination.py` lines 121-145):
exact `SELECT COUNT(*)` over the temporary table, then one sorted page
(inner-joined with `users`) at `LIMIT page_size OFFSET (page-1)*page_size`. -/
def get_accurate_pagination (users : List MUser) (temp : List Fund)
    (page page_size : Nat) (sort_by : String) (desc : Bool) :
    List Fund × Nat :=
  let total_count := temp.length
  let offset := (page - 1) * page_size
  (((pySortBy (sortKeyOf sort_by) desc
      (temp.filter (fun f => handlerJoins users f))).drop offset).take
    page_size, total_count)

/-! ## `alternative_permission_with_pagination.py`: keyset pagination v3 -/

/-- `get_financial_funds_with_pagination_v3`
(`alternative_permission_with_pagination.py` lines 179-239): the batched
union condition plus, when `last_id > 0`, the cursor condition
`sort_by > last_id` (ascending; `<` descending); rows come back sorted on
the sort column with `LIMIT page_size + 1`, the extra row only signalling
`has_next`.  SQL leaves the order of rows with equal sort keys
unspecified; the model fixes it as the stable sort of table order. -/
def get_financial_funds_with_pagination_v3 (users : List MUser)
    (funds : List Fund) (h o c : List Nat) (last_id page_size : Nat)
    (sort_by : String) (asc : Bool) : List Fund × Bool :=
  if h = [] ∧ o = [] ∧ c = [] then ([], false)
  else
    let key := sortKeyOf sort_by
    let sorted := pySortBy key (!asc)
      (funds.filter (fun f => dimMatch h o c f ∧ handlerJoins users f))
    let cursored :=
      if 0 < last_id then
        sorted.filter (fun f =>
          if asc then last_id < key f else key f < last_id)
      else sorted
    let rows := cursored.take (page_size + 1)
    let has_next := page_size < rows.length
    (if has_next then rows.take page_size else rows, has_next)

/-- Iterating the v3 keyset pagination over unchanged data: call v3, and
while `has_next` holds feed the sort key of the page's last row back as
`last_id` (fuelled; each theorem about it supplies enough fuel for the
iteration to run to completion). -/
def keysetIterate (users : List MUser) (funds : List Fund)
    (h o c : List Nat) (page_size : Nat) (sort_by : String) :
    Nat → Nat → List Fund
  | 0, _ => []
  | fuel + 1, last_id =>
    let r := get_financial_funds_with_pagination_v3 users funds h o c
      last_id page_size sort_by true
    if r.2 then
      r.1 ++ keysetIterate users funds h o c page_size sort_by fuel
        ((r.1.getLast?.map (sortKeyOf sort_by)).getD 0)
    else r.1

/-! ## Basic lemmas about the embedded operations -/

theorem mem_of_mem_listDedupNat {l seen : List Nat} {x : Nat}
    (h : x ∈ listDedupNat l seen) : x ∈ l := by
  induction l generalizing seen with
  | nil => simp [listDedupNat] at h
  | cons y ys ih =>
    simp only [listDedupNat] at h
    by_cases hy : y ∈ seen
    · simp only [hy, if_pos] at h
      exact List.mem_cons_of_mem _ (ih h)
    · simp only [hy, if_neg, not_false_iff, List.mem_cons] at h
      rcases h with h | h
      · exact h ▸ List.mem_cons_self _ _
      · exact List.mem_cons_of_mem _ (ih h)

theorem mem_insertIdSet_self (x : Nat) (l : List Nat) : x ∈ insertIdSet x l := by
  unfold insertIdSet
  by_cases hx : x ∈ l
  · simp [hx]
  · simp [hx]

theorem mem_insertIdSet {x y : Nat} {l : List Nat}
    (h : y ∈ insertIdSet x l) : y = x ∨ y ∈ l := by
  unfold insertIdSet at h
  by_cases hx : x ∈ l
  · simp only [hx, if_pos] at h
    exact Or.inr h
  · simp only [hx, if_neg, not_false_iff, List.mem_append, List.mem_cons,
      List.mem_singleton] at h
    tauto

theorem subRun_mono (users : List MUser) :
    ∀ (fuel : Nat) (subs stack s : List Nat),
      subRun users fuel subs stack = some s → ∀ x ∈ subs, x ∈ s := by
  intro fuel
  induction fuel with
  | zero =>
    intro subs stack s h x hx
    cases stack with
    | nil =>
      simp only [subRun, Option.some.injEq] at h
      exact h ▸ hx
    | cons a rest => simp [subRun] at h
  | succ m ih =>
    intro subs stack s h x hx
    cases stack with
    | nil =>
      simp only [subRun, Option.some.injEq] at h
      exact h ▸ hx
    | cons a rest =>
      simp only [subRun] at h
      refine ih _ _ _ h x ?_
      unfold insertIdSet
      by_cases ha : a ∈ subs
      · simp [ha, hx]
      · simp [ha, hx]

theorem mem_execute_batch_query {funds : List Fund} {field : Fund → Nat}
    {params : List Nat} {bs : Nat} (hbs : 0 < bs) {x : Fund} :
    x ∈ execute_batch_query funds field params bs ↔
      x ∈ funds ∧ field x ∈ params := by
  unfold execute_batch_query
  by_cases hp : params = []
  · simp [hp]
  · simp only [hp, if_neg, not_false_iff, List.mem_flatten, List.mem_map]
    constructor
    · rintro ⟨r, ⟨b, hb, rfl⟩, hx⟩
      rw [List.mem_filter] at hx
      refine ⟨hx.1, ?_⟩
      have : field x ∈ (chunksOf bs params).flatten :=
        List.mem_flatten.2 ⟨b, hb, by simpa using hx.2⟩
      rwa [chunksOf_flatten bs hbs] at this
    · rintro ⟨hxf, hxp⟩
      have : field x ∈ (chunksOf bs params).flatten := by
        rwa [chunksOf_flatten bs hbs]
      rcases List.mem_flatten.1 this with ⟨b, hb, hxb⟩
      exact ⟨funds.filter (fun f => field f ∈ b), ⟨b, hb, rfl⟩,
        List.mem_filter.2 ⟨hxf, by simpa using hxb⟩⟩

/-! ## C3: subordinate resolution always contains the user itself -/

/-- C3.  Every subordinate-resolution variant returns a set containing
the requested user id: (a) `PermissionService.get_subordinates`
(whenever its loop terminates), (b) the depth-limited
`DatabasePermissionService.get_subordinates`, and (c) the
`get_subordinate_ids` + append-self variant of the MySQL services. -/
theorem c3_resolve_contains_self :
    (∀ (users : List MUser) (fuel user_id : Nat) (s : List Nat),
      get_subordinates users fuel user_id = some s → user_id ∈ s) ∧
    (∀ (users : List MUser) (user_id : Nat),
      user_id ∈ db_get_subordinates users user_id) ∧
    (∀ (hier : List HierRow) (supervisor_id : Nat),
      supervisor_id ∈ subordinate_ids_with_self hier supervisor_id) := by
  refine ⟨?_, ?_, ?_⟩
  · intro users fuel user_id s h
    unfold get_subordinates at h
    cases fuel with
    | zero => simp [subRun] at h
    | succ m =>
      simp only [subRun] at h
      refine subRun_mono users m _ _ s h user_id ?_
      exact mem_insertIdSet_self _ _
  · intro users user_id
    unfold db_get_subordinates
    exact mem_insertIdSet_self _ _
  · intro hier supervisor_id
    unfold subordinate_ids_with_self
    by_cases hs : supervisor_id ∈
        (hier.filter (fun r => r.user_id = supervisor_id)).map
          (·.subordinate_id)
    · simp [hs]
    · simp [hs]

/-- Witness for C3 at the repository's own user table: resolving user 2
with fuel 10 terminates with `[2, 3]`, which contains 2. -/
theorem c3_resolve_contains_self_witness : 2 ∈ [2, 3] :=
  c3_resolve_contains_self.1 mainUsers 10 2 [2, 3] rfl

/-! ## C4: the traversal of `PermissionService.get_subordinates` does not
terminate on a cyclic `parent_id` table -/

/-- Two users that are each other's parent — the hierarchy corruption the
spec requires the traversal to survive. -/
def cyclicUsers : List MUser :=
  [⟨1, "甲", "staff", "总部", some 2⟩, ⟨2, "乙", "staff", "总部", some 1⟩]

theorem cyclic_subRun_none :
    ∀ (fuel : Nat) (subs : List Nat),
      subRun cyclicUsers fuel subs [1] = none ∧
        subRun cyclicUsers fuel subs [2] = none := by
  intro fuel
  induction fuel with
  | zero => intro subs; exact ⟨rfl, rfl⟩
  | succ m ih =>
    intro subs
    constructor
    · show subRun cyclicUsers m _ ((childrenOf cyclicUsers 1).reverse ++ []) =
        none
      have hc : childrenOf cyclicUsers 1 = [2] := by decide
      rw [hc]
      exact (ih _).2
    · show subRun cyclicUsers m _ ((childrenOf cyclicUsers 2).reverse ++ []) =
        none
      have hc : childrenOf cyclicUsers 2 = [1] := by decide
      rw [hc]
      exact (ih _).1

/-- C4 (failing input).  `PermissionService.get_subordinates` has no
visited check, so on the cyclic table `{1 ↦ parent 2, 2 ↦ parent 1}` the
`while stack:` loop never terminates: for every iteration budget the
fuelled model is still running (the stack alternates between `[2]` and
`[1]` forever). -/
theorem c4_cyclic_nontermination :
    ∀ fuel : Nat, get_subordinates cyclicUsers fuel 1 = none := by
  intro fuel
  exact (cyclic_subRun_none fuel []).1

/-! ## C10: authenticate falls back to the super admin on unknown roles -/

/-- C10.  When no user carries the requested role, the in-memory gateway
authenticates as `users[1]` (the super admin) and the subsequent
`get_funds` call runs with the full admin scope, returning every fund;
the database gateway likewise falls back to the `id = 1` row. -/
theorem c10_authenticate_fallback (role : String)
    (hrole : ∀ u ∈ mainUsers, u.role ≠ role) :
    api_authenticate role = mainUser1 ∧
      (∀ fuel : Nat, api_get_funds role fuel = some mainFunds) ∧
      (∀ users : List MUser, (∀ u ∈ users, u.role ≠ role) →
        db_authenticate users role = users.find? (fun u => u.id = 1)) := by
  have hauth : api_authenticate role = mainUser1 := by
    unfold api_authenticate
    have : mainUsers.find? (fun u => u.role = role) = none := by
      rw [List.find?_eq_none]
      intro u hu
      simpa using hrole u hu
    rw [this]
    rfl
  refine ⟨hauth, ?_, ?_⟩
  · intro fuel
    unfold api_get_funds
    rw [hauth]
    rfl
  · intro users husers
    unfold db_authenticate
    have h1 : users.find? (fun u => decide (u.role = role ∧ u.id ≤ 4)) =
        none := by
      rw [List.find?_eq_none]
      intro u hu
      simp only [decide_eq_true_eq]
      rintro ⟨hr, _⟩
      exact husers u hu hr
    have h2 : users.find? (fun u => u.role = role) = none := by
      rw [List.find?_eq_none]
      intro u hu
      simpa using husers u hu
    rw [h1, h2]

/-- Witness for C10 at the concrete role string `"auditor"`, which no
user of the repository's base table carries. -/
theorem c10_authenticate_fallback_witness :
    api_authenticate "auditor" = mainUser1 ∧
      (∀ fuel : Nat, api_get_funds "auditor" fuel = some mainFunds) ∧
      (∀ users : List MUser, (∀ u ∈ users, u.role ≠ "auditor") →
        db_authenticate users "auditor" = users.find? (fun u => u.id = 1)) :=
  c10_authenticate_fallback "auditor" (by decide)

/-! ## C6: a failed dimension query is silently skipped, not fatal -/

/-- The rows a future outcome contributes: a raising future contributes
nothing. -/
def okRows : Except String (List Fund) → List Fund
  | Except.ok r => r
  | Except.error _ => []

/-- A fund returned by the one dimension query that succeeds in the C6
counterexample. -/
def c6Fund : Fund := ⟨2, 5, 6, 7, 10⟩

/-- C6 (counterexample).  The future-collection loop of
`get_financial_funds_parallel` catches a failed dimension's exception,
logs it and continues: with the first dimension failing and the second
returning `[c6Fund]`, the call returns the normal page `[c6Fund]` built
from the successful dimensions only — it does not fail. -/
theorem c6_counterexample :
    (∃ e, Except.error e ∈
      [Except.error "查询超时", Except.ok [c6Fund],
        Except.ok ([] : List Fund)]) ∧
      get_financial_funds_parallel_outcomes
        [Except.error "查询超时", Except.ok [c6Fund], Except.ok []] =
        [c6Fund] ∧
      [c6Fund] ≠ ([] : List Fund) := by
  refine ⟨⟨"查询超时", List.mem_cons_self _ _⟩, rfl, by simp⟩

/-- C6 (amended).  If a dimension's batched query fails after retries,
`get_financial_funds_parallel` does not fail the page request: the
exception is swallowed and the result is the keep-first `fund_id`
deduplication of whatever dimensions succeeded. -/
theorem c6_amended_partial_union (outcomes : List (Except String (List Fund))) :
    get_financial_funds_parallel_outcomes outcomes =
      dedupByKey (·.fund_id) ((outcomes.map okRows).flatten) [] := by
  unfold get_financial_funds_parallel_outcomes
  congr 1
  induction outcomes with
  | nil => rfl
  | cons o rest ih =>
    cases o with
    | ok r => simp [collectFutures, okRows, ih]
    | error e => simp [collectFutures, okRows, ih]

/-! ## C9: chunk count and deduplicated size of the batched executor -/

theorem length_filter_or (l : List Fund) (p q : Fund → Prop)
    [DecidablePred p] [DecidablePred q]
    (hdisj : ∀ x ∈ l, ¬(p x ∧ q x)) :
    (l.filter (fun f => p f ∨ q f)).length =
      (l.filter (fun f => p f)).length + (l.filter (fun f => q f)).length := by
  induction l with
  | nil => simp
  | cons g gs ih =>
    have ih' := ih (fun x hx => hdisj x (List.mem_cons_of_mem _ hx))
    simp only [Bool.decide_or] at ih'
    rw [List.filter_cons, List.filter_cons, List.filter_cons]
    by_cases hp : p g
    · have hq : ¬ q g := fun hq => hdisj g (List.mem_cons_self _ _) ⟨hp, hq⟩
      simp [hp, hq, ih']
      omega
    · by_cases hq : q g
      · simp [hp, hq, ih']
        omega
      · simp [hp, hq, ih']

theorem length_filter_mem_append (funds : List Fund) (field : Fund → Nat)
    (b js : List Nat) (hdisj : ∀ x ∈ b, x ∉ js) :
    (funds.filter (fun f => field f ∈ b ++ js)).length =
      (funds.filter (fun f => field f ∈ b)).length +
        (funds.filter (fun f => field f ∈ js)).length := by
  have hcongr : funds.filter (fun f => field f ∈ b ++ js) =
      funds.filter (fun f => field f ∈ b ∨ field f ∈ js) := by
    refine List.filter_congr ?_
    intro x _
    exact decide_eq_decide.2 List.mem_append
  rw [hcongr]
  exact length_filter_or funds (fun f => field f ∈ b) (fun f => field f ∈ js)
    (fun x _ hand => hdisj _ hand.1 hand.2)

theorem length_flatten_chunk_filters (funds : List Fund) (field : Fund → Nat) :
    ∀ cs : List (List Nat), cs.flatten.Nodup →
      ((cs.map (fun b => funds.filter (fun f => field f ∈ b))).flatten).length
        = (funds.filter (fun f => field f ∈ cs.flatten)).length := by
  intro cs
  induction cs with
  | nil => simp
  | cons b rest ih =>
    intro hnd
    rw [List.flatten_cons] at hnd
    rcases List.nodup_append.1 hnd with ⟨hb, hrest, hdisj⟩
    simp only [List.map_cons, List.flatten_cons, List.length_append]
    rw [ih hrest]
    have hdisj' : ∀ x ∈ b, x ∉ rest.flatten := fun x hx hx' => hdisj hx hx'
    calc (funds.filter (fun f => field f ∈ b)).length +
          (funds.filter (fun f => field f ∈ rest.flatten)).length
        = (funds.filter (fun f => field f ∈ b ++ rest.flatten)).length :=
          (length_filter_mem_append funds field b rest.flatten hdisj').symm
      _ = (funds.filter (fun f => field f ∈ (b :: rest).flatten)).length := by
          rw [List.flatten_cons]

/-- C9.  For an id list of size `3 * 1000 + 1` (three full default-sized
chunks plus one), the batched executor partitions it into exactly 4 chunk
queries, and—ids and fund primary keys being duplicate-free—the merged
result has exactly as many rows as the deduplicated set of funds matching
any id in the list. -/
theorem c9_batched_executor (funds : List Fund) (field : Fund → Nat)
    (params : List Nat) (hlen : params.length = 3 * 1000 + 1)
    (hnd : params.Nodup) (hfd : (funds.map (·.fund_id)).Nodup) :
    (chunksOf 1000 params).length = 4 ∧
      (execute_batch_query funds field params 1000).length =
        ((funds.filter (fun f => field f ∈ params)).map (·.fund_id)).dedup.length := by
  have hchunks : (chunksOf 1000 params).length = 4 := by
    rw [chunksOf_length 1000 (by norm_num), hlen]
  refine ⟨hchunks, ?_⟩
  have hne : params ≠ [] := by
    intro h0
    rw [h0] at hlen
    simp at hlen
  unfold execute_batch_query
  rw [if_neg hne]
  have hflat : (chunksOf 1000 params).flatten = params :=
    chunksOf_flatten 1000 (by norm_num) params
  have hfnd : (chunksOf 1000 params).flatten.Nodup := by
    rw [hflat]
    exact hnd
  rw [length_flatten_chunk_filters funds field _ hfnd, hflat]
  have hsub : ((funds.filter (fun f => field f ∈ params)).map
      (·.fund_id)).Nodup := by
    refine List.Nodup.sublist ?_ hfd
    exact List.Sublist.map (fun f : Fund => f.fund_id)
      (List.filter_sublist funds)
  rw [List.dedup_eq_self.2 hsub, List.length_map]

/-- Witness for C9: the id list `0, 1, ..., 3000` (3·1000+1 distinct
ids) against the empty fund table. -/
theorem c9_batched_executor_witness :
    (chunksOf 1000 (List.range 3001)).length = 4 ∧
      (execute_batch_query [] (·.fund_id) (List.range 3001) 1000).length =
        ((([] : List Fund).filter (fun f => f.fund_id ∈ List.range 3001)).map
          (·.fund_id)).dedup.length :=
  c9_batched_executor [] (·.fund_id) (List.range 3001) (by simp)
    (List.nodup_range _) (by simp)

/-! ## C2: the three-dimension union is complete and duplicate-free -/

theorem gffp_nodup_and_mem (funds : List Fund) (h o c : List Nat)
    (hnd : (funds.map (·.fund_id)).Nodup) :
    ((get_financial_funds_parallel funds h o c).map (·.fund_id)).Nodup ∧
      ∀ f, f ∈ get_financial_funds_parallel funds h o c ↔
        f ∈ funds ∧ dimMatch h o c f := by
  unfold get_financial_funds_parallel
  refine ⟨nodup_dedupByKey _ _, ?_⟩
  intro f
  have hq1 : ∀ x : Fund,
      x ∈ (if h ≠ [] then execute_batch_query funds (·.handle_by) h 1000
        else []) ↔ x ∈ funds ∧ x.handle_by ∈ h := by
    intro x
    by_cases hh : h = []
    · simp [hh]
    · simp [hh, mem_execute_batch_query (show (0:Nat) < 1000 by norm_num)]
  have hq2 : ∀ x : Fund,
      x ∈ (if o ≠ [] then execute_batch_query funds (·.order_id) o 1000
        else []) ↔ x ∈ funds ∧ x.order_id ∈ o := by
    intro x
    by_cases ho : o = []
    · simp [ho]
    · simp [ho, mem_execute_batch_query (show (0:Nat) < 1000 by norm_num)]
  have hq3 : ∀ x : Fund,
      x ∈ (if c ≠ [] then execute_batch_query funds (·.customer_id) c 1000
        else []) ↔ x ∈ funds ∧ x.customer_id ∈ c := by
    intro x
    by_cases hc : c = []
    · simp [hc]
    · simp [hc, mem_execute_batch_query (show (0:Nat) < 1000 by norm_num)]
  have hconcat : ∀ x : Fund,
      x ∈ ((if h ≠ [] then execute_batch_query funds (·.handle_by) h 1000
          else []) ++
        (if o ≠ [] then execute_batch_query funds (·.order_id) o 1000
          else []) ++
        (if c ≠ [] then execute_batch_query funds (·.customer_id) c 1000
          else [])) ↔ x ∈ funds ∧ dimMatch h o c x := by
    intro x
    simp only [List.mem_append, hq1 x, hq2 x, hq3 x, dimMatch]
    tauto
  constructor
  · intro hf
    exact (hconcat f).1 (mem_of_mem_dedupByKey hf)
  · rintro ⟨hff, hdim⟩
    have hfc := (hconcat f).2 ⟨hff, hdim⟩
    rcases exists_mem_dedupByKey hfc (List.not_mem_nil _) with ⟨g, hg, hkey⟩
    have hgf : g ∈ funds := ((hconcat g).1 (mem_of_mem_dedupByKey hg)).1
    have : g = f := List.inj_on_of_nodup_map hnd hgf hff hkey
    exact this ▸ hg

/-- The hierarchy rows of the C2 scenario: supervisor `U = 2` with
subordinates `A = 3` and `B = 4`. -/
def c2Hier : List HierRow := [⟨2, 3⟩, ⟨2, 4⟩]

/-- The order `O1` of the C2 scenario, owned by `A = 3`. -/
def c2Orders : List MOrder := [⟨2001, 3⟩]

/-- The customer `C1` of the C2 scenario, administered by `B = 4`. -/
def c2Customers : List MCustomer := [⟨3001, 4⟩]

/-- `F1`: handled by `A = 3`. -/
def c2F1 : Fund := ⟨101, 3, 9001, 9501, 10⟩

/-- `F2`: `order_id = O1`, handled by someone outside the scope. -/
def c2F2 : Fund := ⟨102, 77, 2001, 9502, 20⟩

/-- `F3`: `customer_id = C1`, handled by someone outside the scope. -/
def c2F3 : Fund := ⟨103, 78, 9002, 3001, 30⟩

/-- The fund table of the C2 scenario. -/
def c2Funds : List Fund := [c2F1, c2F2, c2F3]

/-- C2.  The fund ids in the three-dimension union are duplicate-free and
the union contains exactly the funds matching at least one dimension; on
the scenario (`U = 2` with subordinates `{2, 3, 4}` resolved from the
hierarchy table, `A` owning `O1`, `B` administering `C1`) the authorized
set is exactly `[F1, F2, F3]`, each fund exactly once. -/
theorem c2_union_dedup :
    (∀ (funds : List Fund) (h o c : List Nat),
      (funds.map (·.fund_id)).Nodup →
        ((get_financial_funds_parallel funds h o c).map (·.fund_id)).Nodup ∧
          ∀ f, f ∈ get_financial_funds_parallel funds h o c ↔
            f ∈ funds ∧ dimMatch h o c f) ∧
      get_financial_funds_parallel c2Funds
        (get_user_permissions c2Hier c2Orders c2Customers 2).subordinate_ids
        (get_user_permissions c2Hier c2Orders c2Customers 2).order_ids
        (get_user_permissions c2Hier c2Orders c2Customers 2).customer_ids =
        [c2F1, c2F2, c2F3] :=
  ⟨gffp_nodup_and_mem, by decide⟩

/-- Witness for C2 at the scenario data (whose fund ids are
duplicate-free). -/
theorem c2_union_dedup_witness :
    ((get_financial_funds_parallel c2Funds [3, 4, 2] [2001] [3001]).map
      (·.fund_id)).Nodup ∧
      ∀ f, f ∈ get_financial_funds_parallel c2Funds [3, 4, 2] [2001] [3001] ↔
        f ∈ c2Funds ∧ dimMatch [3, 4, 2] [2001] [3001] f :=
  c2_union_dedup.1 c2Funds [3, 4, 2] [2001] [3001] (by decide)

/-! ## C1: the database fund listing is sound but silently incomplete -/

theorem mem_selectUniqueFunds :
    ∀ (l : List Fund) (seen : List Nat) (cnt : Nat) {x : Fund},
      x ∈ selectUniqueFunds l seen cnt → x ∈ l := by
  intro l
  induction l with
  | nil =>
    intro seen cnt x hx
    simp [selectUniqueFunds] at hx
  | cons f rest ih =>
    intro seen cnt x hx
    simp only [selectUniqueFunds] at hx
    by_cases h1 : f.fund_id ∈ seen
    · rw [if_pos h1] at hx
      exact List.mem_cons_of_mem _ (ih _ _ hx)
    · rw [if_neg h1] at hx
      by_cases h2 : 1000 ≤ cnt + 1
      · rw [if_pos h2] at hx
        simp only [List.mem_singleton] at hx
        exact hx ▸ List.mem_cons_self _ _
      · rw [if_neg h2] at hx
        rcases List.mem_cons.1 hx with h | h
        · exact h ▸ List.mem_cons_self _ _
        · exact List.mem_cons_of_mem _ (ih _ _ h)

theorem mem_ecqGo {funds : List Fund} {field : Fund → Nat} :
    ∀ (cs : List (List Nat)) (acc : List Fund) {x : Fund},
      x ∈ ecqGo funds field cs acc →
        x ∈ acc ∨ (x ∈ funds ∧ ∃ b ∈ cs, field x ∈ b) := by
  intro cs
  induction cs with
  | nil =>
    intro acc x hx
    exact Or.inl (by simpa [ecqGo] using hx)
  | cons b rest ih =>
    intro acc x hx
    simp only [ecqGo] at hx
    have hchunk : ∀ {y : Fund},
        y ∈ (funds.filter (fun f => field f ∈ b)).take 1000 →
          y ∈ funds ∧ ∃ b' ∈ b :: rest, field y ∈ b' := by
      intro y hy
      have hy' := List.mem_of_mem_take hy
      rw [List.mem_filter] at hy'
      exact ⟨hy'.1, b, List.mem_cons_self _ _, by simpa using hy'.2⟩
    by_cases hlen :
        1000 ≤ (acc ++ (funds.filter (fun f => field f ∈ b)).take 1000).length
    · rw [if_pos hlen] at hx
      rcases List.mem_append.1 hx with h | h
      · exact Or.inl h
      · exact Or.inr (hchunk h)
    · rw [if_neg hlen] at hx
      rcases ih _ hx with h | h
      · rcases List.mem_append.1 h with h' | h'
        · exact Or.inl h'
        · exact Or.inr (hchunk h')
      · rcases h with ⟨hxf, b', hb', hfb⟩
        exact Or.inr ⟨hxf, b', List.mem_cons_of_mem _ hb', hfb⟩

theorem mem_execute_chunked_query {funds : List Fund} {field : Fund → Nat}
    {ids : List Nat} {mcs : Nat} (hm : 0 < mcs) {x : Fund}
    (hx : x ∈ execute_chunked_query funds field ids mcs) :
    x ∈ funds ∧ field x ∈ ids := by
  unfold execute_chunked_query at hx
  rcases mem_ecqGo _ _ hx with h | h
  · simp at h
  · rcases h with ⟨hxf, b, hb, hfb⟩
    refine ⟨hxf, ?_⟩
    have : field x ∈ (chunksOf mcs ids).flatten := List.mem_flatten.2 ⟨b, hb, hfb⟩
    rwa [chunksOf_flatten mcs hm] at this

theorem reportsTo_cteLevel (users : List MUser) (uid : Nat) (prev : List Nat)
    (hprev : ∀ p ∈ prev, ReportsTo users uid p) :
    ∀ x ∈ cteLevel users prev, ReportsTo users uid x := by
  intro x hx
  have hx' := mem_of_mem_listDedupNat hx
  rcases List.mem_map.1 hx' with ⟨w, hw, hwid⟩
  rw [List.mem_filter] at hw
  obtain ⟨hwu, hcond⟩ := hw
  cases hpar : w.parent_id with
  | none => rw [hpar] at hcond; simp at hcond
  | some p =>
    rw [hpar] at hcond
    simp only [decide_eq_true_eq] at hcond
    exact ReportsTo.step (hprev p hcond) ⟨w, hwu, hwid, hpar⟩

theorem reportsTo_db_get_subordinates (users : List MUser) (uid : Nat) :
    ∀ x ∈ db_get_subordinates users uid, ReportsTo users uid x := by
  intro x hx
  simp only [db_get_subordinates] at hx
  rcases mem_insertIdSet hx with rfl | hx'
  · exact ReportsTo.refl _
  · have hx2 := List.mem_of_mem_take (mem_of_mem_listDedupNat hx')
    have h0 : ∀ p ∈ [uid], ReportsTo users uid p := by
      intro p hp
      rw [List.mem_singleton] at hp
      exact hp ▸ ReportsTo.refl _
    have h1 := reportsTo_cteLevel users uid [uid] h0
    have h2 := reportsTo_cteLevel users uid _ h1
    have h3 := reportsTo_cteLevel users uid _ h2
    simp only [List.append_assoc, List.mem_append] at hx2
    rcases hx2 with h | h | h | h
    · exact h0 x h
    · exact h1 x h
    · exact h2 x h
    · exact h3 x h

theorem mem_if_list {P : Prop} [Decidable P] {l : List Fund} {x : Fund}
    (hx : x ∈ if P then l else []) : P ∧ x ∈ l := by
  by_cases hp : P
  · rw [if_pos hp] at hx
    exact ⟨hp, hx⟩
  · rw [if_neg hp] at hx
    simp at hx

/-- C1 (amended, soundness half).  Every fund returned by
`DatabaseFinancialService.get_funds` lies within the requesting user's
authorization scope: its handler, order owner, or customer administrator
is the user or a transitive subordinate (admins unrestricted). -/
theorem c1_db_get_funds_sound (st : DbState) (u : MUser) (f : Fund)
    (hf : f ∈ db_get_funds st u) : specAuthorized st u f := by
  by_cases hadmin : u.role = "admin"
  · exact Or.inl hadmin
  simp only [db_get_funds] at hf
  have hs : (db_get_accessible_data_scope st u).is_admin = false := by
    unfold db_get_accessible_data_scope
    rw [if_neg hadmin]
    by_cases hsup : u.role = "supervisor"
    · rw [if_pos hsup]
    · rw [if_neg hsup]
      by_cases hstaff : u.role = "staff"
      · rw [if_pos hstaff]
      · rw [if_neg hstaff]
  rw [hs] at hf
  simp only [Bool.false_eq_true, if_neg, not_false_iff] at hf
  have hmem := mem_pySortBy.1
    (List.mem_of_mem_take (mem_selectUniqueFunds _ _ _ hf))
  set scope := db_get_accessible_data_scope st u with hscope
  have hdim : f.handle_by ∈ scope.handle_by ∨ f.order_id ∈ scope.order_ids ∨
      f.customer_id ∈ scope.customer_ids := by
    rcases List.mem_append.1 hmem with hm | hm
    · rcases List.mem_append.1 hm with hm' | hm'
      · have := mem_if_list hm'
        exact Or.inl (mem_execute_chunked_query (by norm_num) this.2).2
      · have := mem_if_list hm'
        exact Or.inr (Or.inl
          (mem_execute_chunked_query (by norm_num) this.2).2)
    · have := mem_if_list hm
      exact Or.inr (Or.inr (mem_execute_chunked_query (by norm_num) this.2).2)
  by_cases hsup : u.role = "supervisor"
  · have hscope' : scope = db_get_accessible_data_scope st u := hscope
    rw [db_get_accessible_data_scope, if_neg hadmin, if_pos hsup] at hscope'
    rcases hdim with hd | hd | hd
    · rw [hscope'] at hd
      exact Or.inr (Or.inl
        (reportsTo_db_get_subordinates st.users u.id _ hd))
    · rw [hscope'] at hd
      have hd2 := List.mem_of_mem_take (mem_of_mem_listDedupNat hd)
      rcases List.mem_map.1 hd2 with ⟨o, ho, hoid⟩
      rw [List.mem_filter] at ho
      have hcond := ho.2
      simp only [decide_eq_true_eq] at hcond
      exact Or.inr (Or.inr (Or.inl ⟨o, ho.1, hoid,
        reportsTo_db_get_subordinates st.users u.id _ hcond.2⟩))
    · rw [hscope'] at hd
      have hd2 := List.mem_of_mem_take (mem_of_mem_listDedupNat hd)
      rcases List.mem_map.1 hd2 with ⟨cst, hc, hcid⟩
      rw [List.mem_filter] at hc
      have hcond := hc.2
      simp only [decide_eq_true_eq] at hcond
      exact Or.inr (Or.inr (Or.inr ⟨cst, hc.1, hcid,
        reportsTo_db_get_subordinates st.users u.id _ hcond.2⟩))
  by_cases hstaff : u.role = "staff"
  · have hscope' : scope = db_get_accessible_data_scope st u := hscope
    rw [db_get_accessible_data_scope, if_neg hadmin, if_neg hsup,
      if_pos hstaff] at hscope'
    rcases hdim with hd | hd | hd
    · rw [hscope'] at hd
      rw [List.mem_singleton] at hd
      exact Or.inr (Or.inl (hd ▸ ReportsTo.refl _))
    · rw [hscope'] at hd
      have hd2 := List.mem_of_mem_take (mem_of_mem_listDedupNat hd)
      rcases List.mem_map.1 hd2 with ⟨o, ho, hoid⟩
      rw [List.mem_filter] at ho
      have hcond := ho.2
      simp only [decide_eq_true_eq] at hcond
      exact Or.inr (Or.inr (Or.inl ⟨o, ho.1, hoid,
        hcond ▸ ReportsTo.refl _⟩))
    · rw [hscope'] at hd
      have hd2 := List.mem_of_mem_take (mem_of_mem_listDedupNat hd)
      rcases List.mem_map.1 hd2 with ⟨cst, hc, hcid⟩
      rw [List.mem_filter] at hc
      have hcond := hc.2
      simp only [decide_eq_true_eq] at hcond
      exact Or.inr (Or.inr (Or.inr ⟨cst, hc.1, hcid,
        hcond ▸ ReportsTo.refl _⟩))
  · have hscope' : scope = db_get_accessible_data_scope st u := hscope
    rw [db_get_accessible_data_scope, if_neg hadmin, if_neg hsup,
      if_neg hstaff] at hscope'
    rcases hdim with hd | hd | hd <;> rw [hscope'] at hd <;> simp at hd

/-- A supervisor with a four-level reporting chain below them:
2 ← 3 ← 4 ← 5 ← 6. -/
def c1Users : List MUser :=
  [⟨2, "主管", "supervisor", "华东区", none⟩,
   ⟨3, "一级专员", "staff", "华东区", some 2⟩,
   ⟨4, "二级专员", "staff", "华东区", some 3⟩,
   ⟨5, "三级专员", "staff", "华东区", some 4⟩,
   ⟨6, "四级专员", "staff", "华东区", some 5⟩]

/-- A fund handled by user 6, the depth-4 transitive subordinate. -/
def c1Fund : Fund := ⟨500, 6, 900, 901, 42⟩

/-- The database state of the C1 counterexample. -/
def c1State : DbState := ⟨c1Users, [], [], [c1Fund]⟩

/-- The requesting supervisor of the C1 counterexample. -/
def c1Supervisor : MUser := ⟨2, "主管", "supervisor", "华东区", none⟩

/-- C1 (counterexample).  `c1Fund` is handled by a transitive subordinate
of supervisor 2 (four levels down), so it lies in the user's
authorization scope; yet `DatabaseFinancialService.get_funds` returns the
empty page without any error, because
`DatabasePermissionService.get_subordinates` truncates the recursive CTE
at depth 3 (`s.depth < 3`) and silently drops user 6 from the scope. -/
theorem c1_counterexample :
    specAuthorized c1State c1Supervisor c1Fund ∧
      db_get_funds c1State c1Supervisor = [] := by
  constructor
  · refine Or.inr (Or.inl ?_)
    have r3 : ReportsTo c1State.users 2 3 :=
      ReportsTo.step (ReportsTo.refl 2)
        ⟨⟨3, "一级专员", "staff", "华东区", some 2⟩, by decide, rfl, rfl⟩
    have r4 : ReportsTo c1State.users 2 4 :=
      ReportsTo.step r3
        ⟨⟨4, "二级专员", "staff", "华东区", some 3⟩, by decide, rfl, rfl⟩
    have r5 : ReportsTo c1State.users 2 5 :=
      ReportsTo.step r4
        ⟨⟨5, "三级专员", "staff", "华东区", some 4⟩, by decide, rfl, rfl⟩
    exact ReportsTo.step r5
      ⟨⟨6, "四级专员", "staff", "华东区", some 5⟩, by decide, rfl, rfl⟩
  · decide

/-- A two-user state on which `db_get_funds` does return a fund, for the
soundness witness. -/
def c1wState : DbState :=
  ⟨[⟨2, "主管", "supervisor", "华东区", none⟩,
    ⟨3, "专员", "staff", "华东区", some 2⟩], [], [],
   [⟨700, 3, 1, 1, 5⟩]⟩

/-- Witness for the C1 soundness theorem: the fund handled by direct
subordinate 3 is returned and indeed authorized. -/
theorem c1_db_get_funds_sound_witness :
    specAuthorized c1wState c1Supervisor ⟨700, 3, 1, 1, 5⟩ :=
  c1_db_get_funds_sound c1wState c1Supervisor ⟨700, 3, 1, 1, 5⟩ (by decide)

/-! ## C5: smart pagination's totalCount is an estimate, 0 after page 1 -/

/-- The users table of the C5 counterexample (user 3 handles every
fund). -/
def c5Users : List MUser := [⟨3, "专员", "staff", "华东区", some 2⟩]

/-- Supervisor 2 has subordinate 3. -/
def c5Hier : List HierRow := [⟨2, 3⟩]

/-- One order owned by subordinate 3. -/
def c5Orders : List MOrder := [⟨2001, 3⟩]

/-- One customer administered by subordinate 3. -/
def c5Customers : List MCustomer := [⟨3001, 3⟩]

/-- 25 funds, all handled by subordinate 3 — all authorized. -/
def c5Funds : List Fund :=
  (List.range 25).map (fun i => ⟨i + 1, 3, 9000 + i, 8000 + i, 100⟩)

/-- C5 (counterexample).  On page 2 (`page_size = 20`) the
`smart_pagination_service` page reports `total_count = 0` even though 25
distinct authorized funds exist (and the page itself holds the 5
remaining rows): `get_financial_funds_optimized_pagination` only
estimates the total on page 1 and returns 0 on every later page. -/
theorem c5_counterexample :
    (smart_pagination_service c5Hier c5Users c5Orders c5Customers c5Funds
        2 2 20 "fund_id" false).total_count = 0 ∧
      (smart_pagination_service c5Hier c5Users c5Orders c5Customers c5Funds
        2 2 20 "fund_id" false).items.length = 5 ∧
      (c5Funds.filter (fun f =>
        dimMatch (subordinate_ids_with_self c5Hier 2)
          ((c5Orders.filter (fun o =>
            o.user_id ∈ subordinate_ids_with_self c5Hier 2)).map (·.order_id))
          ((c5Customers.filter (fun cst =>
            cst.admin_user_id ∈ subordinate_ids_with_self c5Hier 2)).map
            (·.customer_id)) f)).length = 25 := by
  refine ⟨by decide, by decide, by decide⟩

/-- C5 (amended).  The accurate-pagination path reports the exact
deduplicated authorized count (the temporary permission table's
`COUNT(*)`), while the smart-pagination path's `total_count` is `0` on
every page after the first. -/
theorem c5_amended_total_counts :
    (∀ (users : List MUser) (funds : List Fund) (h o c : List Nat)
        (page page_size : Nat) (sort_by : String) (desc : Bool),
      (funds.map (·.fund_id)).Nodup →
        (get_accurate_pagination users
            (create_temp_permission_table funds h o c) page page_size
            sort_by desc).2 =
          (funds.filter (fun f => dimMatch h o c f)).length) ∧
    (∀ (users : List MUser) (funds : List Fund) (h o c : List Nat)
        (page page_size : Nat) (sort_by : String) (desc et : Bool),
      page ≠ 1 →
        (get_financial_funds_optimized_pagination users funds h o c page
            page_size sort_by desc et).2 = 0) := by
  constructor
  · intro users funds h o c page page_size sort_by desc hnd
    show (create_temp_permission_table funds h o c).length =
      (funds.filter (fun f => dimMatch h o c f)).length
    unfold create_temp_permission_table
    set temp := dedupByKey (·.fund_id)
      (execute_batch_query funds (·.handle_by) h 1000 ++
       execute_batch_query funds (·.order_id) o 1000 ++
       execute_batch_query funds (·.customer_id) c 1000) [] with htemp
    have hconcat : ∀ x : Fund,
        x ∈ (execute_batch_query funds (·.handle_by) h 1000 ++
          execute_batch_query funds (·.order_id) o 1000 ++
          execute_batch_query funds (·.customer_id) c 1000) ↔
          x ∈ funds ∧ dimMatch h o c x := by
      intro x
      simp only [List.mem_append,
        mem_execute_batch_query (show (0:Nat) < 1000 by norm_num), dimMatch]
      tauto
    have hmem : ∀ x : Fund, x ∈ temp ↔
        x ∈ funds.filter (fun f => dimMatch h o c f) := by
      intro x
      rw [List.mem_filter]
      constructor
      · intro hx
        have := (hconcat x).1 (mem_of_mem_dedupByKey hx)
        exact ⟨this.1, by simpa using this.2⟩
      · rintro ⟨hxf, hdim⟩
        have hdim' : dimMatch h o c x := by simpa using hdim
        have hfc := (hconcat x).2 ⟨hxf, hdim'⟩
        rcases exists_mem_dedupByKey hfc (List.not_mem_nil _) with
          ⟨g, hg, hkey⟩
        have hgf : g ∈ funds := ((hconcat g).1 (mem_of_mem_dedupByKey hg)).1
        have : g = x := List.inj_on_of_nodup_map hnd hgf hxf hkey
        exact this ▸ hg
    have hnd1 : temp.Nodup := List.Nodup.of_map _ (nodup_dedupByKey _ _)
    have hnd2 : (funds.filter (fun f => dimMatch h o c f)).Nodup :=
      List.Nodup.sublist (List.filter_sublist funds) (List.Nodup.of_map _ hnd)
    exact ((List.perm_ext_iff_of_nodup hnd1 hnd2).2 hmem).length_eq
  · intro users funds h o c page page_size sort_by desc et hpage
    simp [get_financial_funds_optimized_pagination, hpage]

/-- Witness for the C5 amended theorem at the counterexample data. -/
theorem c5_amended_total_counts_witness :
    (get_accurate_pagination c5Users
        (create_temp_permission_table c5Funds [3, 2] [2001] [3001]) 1 20
        "fund_id" false).2 =
      (c5Funds.filter (fun f => dimMatch [3, 2] [2001] [3001] f)).length ∧
      (get_financial_funds_optimized_pagination c5Users c5Funds [3, 2]
          [2001] [3001] 2 20 "fund_id" false false).2 = 0 :=
  ⟨c5_amended_total_counts.1 c5Users c5Funds [3, 2] [2001] [3001] 1 20
      "fund_id" false (by decide),
   c5_amended_total_counts.2 c5Users c5Funds [3, 2] [2001] [3001] 2 20
      "fund_id" false false (by decide)⟩

/-! ## C7: concatenating all pages of the batched-union strategy -/

theorem slicesFlatten (n : Nat) (hn : 0 < n) (l : List α) :
    ((List.range ((l.length + n - 1) / n)).map
      (fun i => (l.drop (i * n)).take n)).flatten = l := by
  by_cases hsmall : l.length ≤ n
  · by_cases hnil : l.length = 0
    · have hz : (l.length + n - 1) / n = 0 := by
        rw [hnil]
        exact Nat.div_eq_of_lt (by omega)
      have hl : l = [] := List.eq_nil_of_length_eq_zero hnil
      simp [hz, hl]
    · have h1 : (l.length + n - 1) / n = 1 :=
        Nat.div_eq_of_lt_le (by omega) (by omega)
      rw [h1, show List.range 1 = [0] from rfl]
      simp only [List.map_cons, List.map_nil, List.flatten_cons,
        List.flatten_nil, List.append_nil, Nat.zero_mul, List.drop_zero]
      exact List.take_of_length_le hsmall
  · push_neg at hsmall
    have hceil : (l.length + n - 1) / n =
        ((l.drop n).length + n - 1) / n + 1 := by
      rw [List.length_drop]
      have heq : l.length + n - 1 = (l.length - n + n - 1) + n := by omega
      rw [heq, Nat.add_div_right _ hn]
    rw [hceil, List.range_succ_eq_map]
    simp only [List.map_cons, List.flatten_cons, Nat.zero_mul, List.drop_zero,
      List.map_map]
    have hcomp : (List.range (((l.drop n).length + n - 1) / n)).map
        ((fun i => (l.drop (i * n)).take n) ∘ Nat.succ) =
        (List.range (((l.drop n).length + n - 1) / n)).map
          (fun i => ((l.drop n).drop (i * n)).take n) := by
      refine List.map_congr_left ?_
      intro i _
      simp only [Function.comp_apply]
      rw [List.drop_drop]
      congr 2
      simp only [Nat.succ_mul]
      omega
    rw [hcomp, slicesFlatten n hn (l.drop n)]
    exact List.take_append_drop n l
termination_by l.length
decreasing_by
  simp only [List.length_drop]
  omega

/-- C7.  Over unchanged data, concatenating the items of pages
`1, 2, ..., total_pages` of `get_paginated_financial_data` (the pages the
`has_next`-driven iteration visits, since `has_next = page < total_pages`
and `total_pages` is the same on every call) yields exactly the sorted
deduplicated authorized set: its fund ids are duplicate-free and are
exactly the authorized ids — none missing, none repeated. -/
theorem c7_pages_roundtrip (hier : List HierRow) (orders : List MOrder)
    (customers : List MCustomer) (funds : List Fund) (sid ps : Nat)
    (sort_by sort_order : String) (hnd : (funds.map (·.fund_id)).Nodup)
    (hps : 0 < ps) :
    ((List.range (get_paginated_financial_data hier orders customers funds
        sid 1 ps sort_by sort_order).total_pages).map
      (fun i => (get_paginated_financial_data hier orders customers funds
        sid (i + 1) ps sort_by sort_order).items)).flatten =
      pySortBy (sortKeyOf sort_by) (sort_order.toUpper = "DESC")
        (get_financial_funds_parallel funds
          (get_user_permissions hier orders customers sid).subordinate_ids
          (get_user_permissions hier orders customers sid).order_ids
          (get_user_permissions hier orders customers sid).customer_ids) ∧
    ((pySortBy (sortKeyOf sort_by) (sort_order.toUpper = "DESC")
        (get_financial_funds_parallel funds
          (get_user_permissions hier orders customers sid).subordinate_ids
          (get_user_permissions hier orders customers sid).order_ids
          (get_user_permissions hier orders customers sid).customer_ids)).map
      (·.fund_id)).Nodup ∧
    (∀ f, f ∈ pySortBy (sortKeyOf sort_by) (sort_order.toUpper = "DESC")
        (get_financial_funds_parallel funds
          (get_user_permissions hier orders customers sid).subordinate_ids
          (get_user_permissions hier orders customers sid).order_ids
          (get_user_permissions hier orders customers sid).customer_ids) ↔
      f ∈ funds ∧
        dimMatch (get_user_permissions hier orders customers sid).subordinate_ids
          (get_user_permissions hier orders customers sid).order_ids
          (get_user_permissions hier orders customers sid).customer_ids f) := by
  have hspec := gffp_nodup_and_mem funds
    (get_user_permissions hier orders customers sid).subordinate_ids
    (get_user_permissions hier orders customers sid).order_ids
    (get_user_permissions hier orders customers sid).customer_ids hnd
  have hpermlist : List.Perm
      (pySortBy (sortKeyOf sort_by) (sort_order.toUpper = "DESC")
        (get_financial_funds_parallel funds
          (get_user_permissions hier orders customers sid).subordinate_ids
          (get_user_permissions hier orders customers sid).order_ids
          (get_user_permissions hier orders customers sid).customer_ids))
      (get_financial_funds_parallel funds
        (get_user_permissions hier orders customers sid).subordinate_ids
        (get_user_permissions hier orders customers sid).order_ids
        (get_user_permissions hier orders customers sid).customer_ids) :=
    pySortBy_perm _ _ _
  refine ⟨?_, ?_, ?_⟩
  · have hitems : ∀ i : Nat,
        (get_paginated_financial_data hier orders customers funds sid (i + 1)
          ps sort_by sort_order).items =
        ((pySortBy (sortKeyOf sort_by) (sort_order.toUpper = "DESC")
          (get_financial_funds_parallel funds
            (get_user_permissions hier orders customers sid).subordinate_ids
            (get_user_permissions hier orders customers sid).order_ids
            (get_user_permissions hier orders customers
              sid).customer_ids)).drop (i * ps)).take ps := by
      intro i
      simp only [get_paginated_financial_data, Nat.add_sub_cancel]
    have hpages : (get_paginated_financial_data hier orders customers funds
        sid 1 ps sort_by sort_order).total_pages =
        if 0 < (pySortBy (sortKeyOf sort_by) (sort_order.toUpper = "DESC")
          (get_financial_funds_parallel funds
            (get_user_permissions hier orders customers sid).subordinate_ids
            (get_user_permissions hier orders customers sid).order_ids
            (get_user_permissions hier orders customers
              sid).customer_ids)).length then
          ((pySortBy (sortKeyOf sort_by) (sort_order.toUpper = "DESC")
            (get_financial_funds_parallel funds
              (get_user_permissions hier orders customers sid).subordinate_ids
              (get_user_permissions hier orders customers sid).order_ids
              (get_user_permissions hier orders customers
                sid).customer_ids)).length + ps - 1) / ps
        else 1 := by
      simp only [get_paginated_financial_data]
    rw [hpages, List.map_congr_left (fun i _ => hitems i)]
    by_cases hlen : 0 < (pySortBy (sortKeyOf sort_by)
        (sort_order.toUpper = "DESC")
        (get_financial_funds_parallel funds
          (get_user_permissions hier orders customers sid).subordinate_ids
          (get_user_permissions hier orders customers sid).order_ids
          (get_user_permissions hier orders customers
            sid).customer_ids)).length
    · rw [if_pos hlen]
      exact slicesFlatten ps hps _
    · rw [if_neg hlen]
      have hnil : pySortBy (sortKeyOf sort_by) (sort_order.toUpper = "DESC")
          (get_financial_funds_parallel funds
            (get_user_permissions hier orders customers sid).subordinate_ids
            (get_user_permissions hier orders customers sid).order_ids
            (get_user_permissions hier orders customers sid).customer_ids) =
          [] :=
        List.eq_nil_of_length_eq_zero (by omega)
      simp [hnil]
  · exact (hpermlist.map (·.fund_id)).nodup_iff.2 hspec.1
  · intro f
    rw [hpermlist.mem_iff]
    exact hspec.2 f

/-- Witness for C7 at the C5 data with `page_size = 2` (25 authorized
funds over 13 pages). -/
theorem c7_pages_roundtrip_witness :
    ((List.range (get_paginated_financial_data c5Hier c5Orders c5Customers
        c5Funds 2 1 2 "fund_id" "ASC").total_pages).map
      (fun i => (get_paginated_financial_data c5Hier c5Orders c5Customers
        c5Funds 2 (i + 1) 2 "fund_id" "ASC").items)).flatten =
      pySortBy (sortKeyOf "fund_id") ("ASC".toUpper = "DESC")
        (get_financial_funds_parallel c5Funds
          (get_user_permissions c5Hier c5Orders c5Customers 2).subordinate_ids
          (get_user_permissions c5Hier c5Orders c5Customers 2).order_ids
          (get_user_permissions c5Hier c5Orders c5Customers 2).customer_ids) ∧
    ((pySortBy (sortKeyOf "fund_id") ("ASC".toUpper = "DESC")
        (get_financial_funds_parallel c5Funds
          (get_user_permissions c5Hier c5Orders c5Customers 2).subordinate_ids
          (get_user_permissions c5Hier c5Orders c5Customers 2).order_ids
          (get_user_permissions c5Hier c5Orders c5Customers 2).customer_ids)).map
      (·.fund_id)).Nodup ∧
    (∀ f, f ∈ pySortBy (sortKeyOf "fund_id") ("ASC".toUpper = "DESC")
        (get_financial_funds_parallel c5Funds
          (get_user_permissions c5Hier c5Orders c5Customers 2).subordinate_ids
          (get_user_permissions c5Hier c5Orders c5Customers 2).order_ids
          (get_user_permissions c5Hier c5Orders c5Customers 2).customer_ids) ↔
      f ∈ c5Funds ∧
        dimMatch
          (get_user_permissions c5Hier c5Orders c5Customers 2).subordinate_ids
          (get_user_permissions c5Hier c5Orders c5Customers 2).order_ids
          (get_user_permissions c5Hier c5Orders c5Customers 2).customer_ids
          f) :=
  c7_pages_roundtrip c5Hier c5Orders c5Customers c5Funds 2 2 "fund_id" "ASC"
    (by decide) (by decide)

/-! ## C8: keyset pagination — correct only for the unique sort key -/

theorem sortKeyOf_fund_id : sortKeyOf "fund_id" = fun f : Fund => f.fund_id := by
  funext f
  rfl

theorem pairwise_lt_of_sorted_nodup {key : Fund → Nat} {l : List Fund}
    (hs : List.Pairwise (fun a b => key a ≤ key b) l)
    (hn : (l.map key).Nodup) :
    List.Pairwise (fun a b => key a < key b) l := by
  have hne : List.Pairwise (fun a b => key a ≠ key b) l :=
    List.pairwise_map.1 hn
  exact (hs.and hne).imp (fun h => lt_of_le_of_ne h.1 h.2)

theorem pairwise_getLast {r : Fund → Fund → Prop} :
    ∀ {l : List Fund}, List.Pairwise r l → ∀ {x : Fund},
      l.getLast? = some x → ∀ y ∈ l, y = x ∨ r y x := by
  intro l
  induction l with
  | nil =>
    intro _ x hx
    simp [List.getLast?] at hx
  | cons a as ih =>
    intro hp x hx y hy
    cases has : as with
    | nil =>
      subst has
      have hax : a = x := by
        simp only [List.getLast?_singleton, Option.some.injEq] at hx
        exact hx
      rw [List.mem_singleton] at hy
      exact Or.inl (hy.trans hax)
    | cons b bs =>
      have htail : as.getLast? = some x := by
        subst has
        rw [List.getLast?_cons_cons] at hx
        exact hx
      have hxmem : x ∈ as := List.mem_of_getLast?_eq_some htail
      rcases List.mem_cons.1 hy with rfl | hy'
      · exact Or.inr ((List.pairwise_cons.1 hp).1 x hxmem)
      · exact ih (List.pairwise_cons.1 hp).2 htail y hy'

theorem filter_gt_getLast_take {key : Fund → Nat} {rem : List Fund}
    (hp : List.Pairwise (fun a b => key a < key b) rem) {ps : Nat} {x : Fund}
    (hx : (rem.take ps).getLast? = some x) :
    rem.filter (fun f => key x < key f) = rem.drop ps := by
  have hsplit : rem = rem.take ps ++ rem.drop ps :=
    (List.take_append_drop ps rem).symm
  have hpsplit : List.Pairwise (fun a b => key a < key b)
      (rem.take ps ++ rem.drop ps) := by
    rw [← hsplit]
    exact hp
  have hcross := (List.pairwise_append.1 hpsplit).2.2
  have hptake : List.Pairwise (fun a b => key a < key b) (rem.take ps) :=
    (List.pairwise_append.1 hpsplit).1
  have hxtake : x ∈ rem.take ps := List.mem_of_getLast?_eq_some hx
  have hfront : (rem.take ps).filter (fun f => key x < key f) = [] := by
    rw [List.filter_eq_nil_iff]
    intro y hy
    rcases pairwise_getLast hptake hx y hy with rfl | hlt
    · simp
    · simp only [decide_eq_true_eq]
      omega
  have hback : (rem.drop ps).filter (fun f => key x < key f) =
      rem.drop ps := by
    rw [List.filter_eq_self]
    intro y hy
    simp only [decide_eq_true_eq]
    exact hcross x hxtake y hy
  calc rem.filter (fun f => key x < key f)
      = (rem.take ps ++ rem.drop ps).filter (fun f => key x < key f) := by
        rw [← hsplit]
    _ = (rem.take ps).filter (fun f => key x < key f) ++
        (rem.drop ps).filter (fun f => key x < key f) :=
        List.filter_append _ _
    _ = rem.drop ps := by rw [hfront, hback, List.nil_append]

theorem keysetIterate_go (users : List MUser) (funds : List Fund)
    (h o c : List Nat) (ps : Nat) (hps : 0 < ps) (sq : List Fund)
    (heq : pySortBy (sortKeyOf "fund_id") false
      (funds.filter (fun f => dimMatch h o c f ∧ handlerJoins users f)) = sq)
    (hp : List.Pairwise (fun a b : Fund => a.fund_id < b.fund_id) sq)
    (hpos : ∀ f ∈ sq, 0 < f.fund_id) :
    ∀ (fuel last : Nat) (rem : List Fund),
      sq.filter (fun f => last < f.fund_id) = rem →
      rem.length ≤ fuel * ps →
      keysetIterate users funds h o c ps "fund_id" fuel last = rem := by
  intro fuel
  induction fuel with
  | zero =>
    intro last rem hfilter hlen
    have hrem : rem = [] := List.eq_nil_of_length_eq_zero (by omega)
    simp [keysetIterate, hrem]
  | succ m ih =>
    intro last rem hfilter hlen
    by_cases hguard : h = [] ∧ o = [] ∧ c = []
    · have hsq : sq = [] := by
        rw [← heq]
        have hfe : funds.filter
            (fun f => dimMatch h o c f ∧ handlerJoins users f) = [] := by
          rw [List.filter_eq_nil_iff]
          intro a _
          simp only [decide_eq_true_eq, not_and]
          intro hd
          exfalso
          rcases hguard with ⟨h1, h2, h3⟩
          subst h1
          subst h2
          subst h3
          rcases hd with hd | hd | hd <;> simp at hd
        rw [hfe]
        rfl
      have hrem : rem = [] := by
        rw [← hfilter, hsq]
        rfl
      simp [keysetIterate, get_financial_funds_with_pagination_v3,
        hguard.1, hguard.2.1, hguard.2.2, hrem]
    · have hcursor : (if 0 < last then
          sq.filter (fun f => last < f.fund_id) else sq) = rem := by
        by_cases hlast : 0 < last
        · rw [if_pos hlast]
          exact hfilter
        · rw [if_neg hlast]
          have hlast0 : last = 0 := by omega
          rw [← hfilter, hlast0]
          symm
          rw [List.filter_eq_self]
          intro y hy
          simp only [decide_eq_true_eq]
          exact hpos y hy
      rw [sortKeyOf_fund_id] at heq
      have hv3 : get_financial_funds_with_pagination_v3 users funds h o c
          last ps "fund_id" true =
          (if ps < (((if 0 < last then
              (pySortBy (fun f : Fund => f.fund_id) false (funds.filter
                (fun f => dimMatch h o c f ∧ handlerJoins users f))).filter
                (fun f => last < f.fund_id)
            else
              pySortBy (fun f : Fund => f.fund_id) false (funds.filter
                (fun f => dimMatch h o c f ∧ handlerJoins users
                  f)))).take (ps + 1)).length then
            (((if 0 < last then
              (pySortBy (fun f : Fund => f.fund_id) false (funds.filter
                (fun f => dimMatch h o c f ∧ handlerJoins users f))).filter
                (fun f => last < f.fund_id)
            else
              pySortBy (fun f : Fund => f.fund_id) false (funds.filter
                (fun f => dimMatch h o c f ∧ handlerJoins users
                  f)))).take (ps + 1)).take ps
          else
            ((if 0 < last then
              (pySortBy (fun f : Fund => f.fund_id) false (funds.filter
                (fun f => dimMatch h o c f ∧ handlerJoins users f))).filter
                (fun f => last < f.fund_id)
            else
              pySortBy (fun f : Fund => f.fund_id) false (funds.filter
                (fun f => dimMatch h o c f ∧ handlerJoins users
                  f)))).take (ps + 1),
          decide (ps < (((if 0 < last then
              (pySortBy (fun f : Fund => f.fund_id) false (funds.filter
                (fun f => dimMatch h o c f ∧ handlerJoins users f))).filter
                (fun f => last < f.fund_id)
            else
              pySortBy (fun f : Fund => f.fund_id) false (funds.filter
                (fun f => dimMatch h o c f ∧ handlerJoins users
                  f)))).take (ps + 1)).length)) := by
        simp only [get_financial_funds_with_pagination_v3, if_neg hguard,
          Bool.not_true, sortKeyOf_fund_id, if_true]
      rw [heq, hcursor] at hv3
      have hunfold : keysetIterate users funds h o c ps "fund_id" (m + 1)
          last =
          (let r := get_financial_funds_with_pagination_v3 users funds h o c
            last ps "fund_id" true
          if r.2 = true then
            r.1 ++ keysetIterate users funds h o c ps "fund_id" m
              ((r.1.getLast?.map (sortKeyOf "fund_id")).getD 0)
          else r.1) := rfl
      by_cases hbig : ps < rem.length
      · have hlen1 : (rem.take (ps + 1)).length = ps + 1 := by
          rw [List.length_take]
          omega
        have hdec : decide (ps < (rem.take (ps + 1)).length) = true :=
          decide_eq_true (by omega)
        rw [hdec, if_pos (show ps < (List.take (ps + 1) rem).length by omega),
          List.take_take] at hv3
        have hmin : min ps (ps + 1) = ps := by omega
        rw [hmin] at hv3
        have htkne : rem.take ps ≠ [] := by
          have hlen2 : (rem.take ps).length = ps := by
            rw [List.length_take]
            omega
          intro h0
          rw [h0] at hlen2
          simp only [List.length_nil] at hlen2
          omega
        obtain ⟨x, hgl⟩ : ∃ y, (rem.take ps).getLast? = some y :=
          ⟨(rem.take ps).getLast htkne, List.getLast?_eq_getLast _ htkne⟩
        have hxtake : x ∈ rem.take ps := List.mem_of_getLast?_eq_some hgl
        have hxrem : x ∈ rem := List.mem_of_mem_take hxtake
        have hlastx : last < x.fund_id := by
          have hxf : x ∈ sq.filter (fun f => last < f.fund_id) := by
            rw [hfilter]
            exact hxrem
          have := (List.mem_filter.1 hxf).2
          simpa using this
        have hremp : List.Pairwise
            (fun a b : Fund => a.fund_id < b.fund_id) rem := by
          rw [← hfilter]
          exact List.Pairwise.sublist (List.filter_sublist sq) hp
        have hstepC : sq.filter (fun f => x.fund_id < f.fund_id) =
            rem.filter (fun f => x.fund_id < f.fund_id) := by
          rw [← hfilter, List.filter_filter]
          refine List.filter_congr ?_
          intro y _
          by_cases hxy : x.fund_id < y.fund_id
          · have hly : last < y.fund_id := by omega
            simp [hxy, hly]
          · simp [hxy]
        have hstepD : rem.filter (fun f => x.fund_id < f.fund_id) =
            rem.drop ps :=
          filter_gt_getLast_take hremp hgl
        have hrec := ih x.fund_id (rem.drop ps) (hstepC.trans hstepD)
          (by
            rw [List.length_drop]
            rw [Nat.succ_mul] at hlen
            omega)
        rw [hunfold, hv3]
        simp only [sortKeyOf_fund_id, hgl]
        rw [if_pos trivial]
        show List.take ps rem ++
          keysetIterate users funds h o c ps "fund_id" m x.fund_id = rem
        rw [hrec]
        exact List.take_append_drop ps rem
      · have htk : rem.take (ps + 1) = rem :=
          List.take_of_length_le (by omega)
        rw [htk] at hv3
        have hdec : decide (ps < rem.length) = false :=
          decide_eq_false (by omega)
        rw [hdec, if_neg hbig] at hv3
        rw [hunfold, hv3]
        simp

/-- C8 (amended).  When the sort key is the unique `fund_id` (and fund
ids are positive), iterating the v3 keyset pagination over unchanged
data, feeding back the last row's key, visits every qualifying row
exactly once: the concatenation equals the sorted qualifying list, whose
fund ids are duplicate-free and exactly cover the qualifying rows. -/
theorem c8_keyset_unique_key (users : List MUser) (funds : List Fund)
    (h o c : List Nat) (ps fuel : Nat)
    (hnd : (funds.map (·.fund_id)).Nodup)
    (hpos : ∀ f ∈ funds, 0 < f.fund_id) (hps : 0 < ps)
    (hfuel : funds.length ≤ fuel * ps) :
    keysetIterate users funds h o c ps "fund_id" fuel 0 =
      pySortBy (sortKeyOf "fund_id") false
        (funds.filter (fun f => dimMatch h o c f ∧ handlerJoins users f)) ∧
    ((pySortBy (sortKeyOf "fund_id") false
        (funds.filter (fun f => dimMatch h o c f ∧ handlerJoins users
          f))).map (·.fund_id)).Nodup ∧
    (∀ f, f ∈ pySortBy (sortKeyOf "fund_id") false
        (funds.filter (fun f => dimMatch h o c f ∧ handlerJoins users f)) ↔
      f ∈ funds ∧ dimMatch h o c f ∧ handlerJoins users f) := by
  have hperm : List.Perm
      (pySortBy (sortKeyOf "fund_id") false
        (funds.filter (fun f => dimMatch h o c f ∧ handlerJoins users f)))
      (funds.filter (fun f => dimMatch h o c f ∧ handlerJoins users f)) :=
    pySortBy_perm _ _ _
  have hqualnd : ((funds.filter (fun f => dimMatch h o c f ∧
      handlerJoins users f)).map (·.fund_id)).Nodup :=
    List.Nodup.sublist
      (List.Sublist.map (fun f : Fund => f.fund_id)
        (List.filter_sublist funds)) hnd
  have hsqnd : ((pySortBy (sortKeyOf "fund_id") false
      (funds.filter (fun f => dimMatch h o c f ∧ handlerJoins users
        f))).map (·.fund_id)).Nodup :=
    (hperm.map (·.fund_id)).nodup_iff.2 hqualnd
  have hmemiff : ∀ f, f ∈ pySortBy (sortKeyOf "fund_id") false
      (funds.filter (fun f => dimMatch h o c f ∧ handlerJoins users f)) ↔
      f ∈ funds ∧ dimMatch h o c f ∧ handlerJoins users f := by
    intro f
    rw [hperm.mem_iff, List.mem_filter]
    simp
  have hsorted : List.Pairwise (fun a b : Fund => a.fund_id ≤ b.fund_id)
      (pySortBy (sortKeyOf "fund_id") false
        (funds.filter (fun f => dimMatch h o c f ∧ handlerJoins users
          f))) := by
    haveI htot : IsTotal Fund (fun a b : Fund => if false then
        sortKeyOf "fund_id" b ≤ sortKeyOf "fund_id" a
      else sortKeyOf "fund_id" a ≤ sortKeyOf "fund_id" b) := by
      constructor
      intro a b
      simp only [Bool.false_eq_true, if_false, sortKeyOf_fund_id]
      exact Nat.le_total _ _
    haveI htrans : IsTrans Fund (fun a b : Fund => if false then
        sortKeyOf "fund_id" b ≤ sortKeyOf "fund_id" a
      else sortKeyOf "fund_id" a ≤ sortKeyOf "fund_id" b) := by
      constructor
      intro a b cc hab hbc
      simp only [Bool.false_eq_true, if_false, sortKeyOf_fund_id] at *
      omega
    have hs := List.sorted_insertionSort
      (fun a b : Fund => if false then
        sortKeyOf "fund_id" b ≤ sortKeyOf "fund_id" a
      else sortKeyOf "fund_id" a ≤ sortKeyOf "fund_id" b)
      (funds.filter (fun f => dimMatch h o c f ∧ handlerJoins users f))
    exact List.Pairwise.imp (fun hab => by simpa [sortKeyOf_fund_id]
      using hab) hs
  have hp : List.Pairwise (fun a b : Fund => a.fund_id < b.fund_id)
      (pySortBy (sortKeyOf "fund_id") false
        (funds.filter (fun f => dimMatch h o c f ∧ handlerJoins users
          f))) :=
    pairwise_lt_of_sorted_nodup hsorted hsqnd
  have hpos' : ∀ f ∈ pySortBy (sortKeyOf "fund_id") false
      (funds.filter (fun f => dimMatch h o c f ∧ handlerJoins users f)),
      0 < f.fund_id := by
    intro f hf
    exact hpos f ((hmemiff f).1 hf).1
  have hfilter0 : (pySortBy (sortKeyOf "fund_id") false
      (funds.filter (fun f => dimMatch h o c f ∧ handlerJoins users
        f))).filter (fun f => 0 < f.fund_id) =
      pySortBy (sortKeyOf "fund_id") false
        (funds.filter (fun f => dimMatch h o c f ∧ handlerJoins users f)) := by
    rw [List.filter_eq_self]
    intro y hy
    simp only [decide_eq_true_eq]
    exact hpos' y hy
  have hlensq : (pySortBy (sortKeyOf "fund_id") false
      (funds.filter (fun f => dimMatch h o c f ∧ handlerJoins users
        f))).length ≤ fuel * ps := by
    rw [hperm.length_eq]
    calc (funds.filter (fun f => dimMatch h o c f ∧ handlerJoins users
          f)).length ≤ funds.length := List.length_filter_le _ _
      _ ≤ fuel * ps := hfuel
  refine ⟨?_, hsqnd, hmemiff⟩
  exact keysetIterate_go users funds h o c ps hps _ rfl hp hpos' fuel 0 _
    hfilter0 hlensq

/-- The fund handler of the C8 scenario. -/
def c8Users : List MUser := [⟨3, "专员", "staff", "华东区", none⟩]

/-- Three funds with identical `amount = 100` sort keys. -/
def c8F1 : Fund := ⟨1, 3, 11, 21, 100⟩

/-- Second fund with the duplicate amount. -/
def c8F2 : Fund := ⟨2, 3, 12, 22, 100⟩

/-- Third fund with the duplicate amount — skipped by the iteration. -/
def c8F3 : Fund := ⟨3, 3, 13, 23, 100⟩

/-- The fund table of the C8 counterexample. -/
def c8Funds : List Fund := [c8F1, c8F2, c8F3]

/-- C8 (counterexample).  With `sort_by = "amount"` and three qualifying
rows sharing `amount = 100` at `page_size = 2`, the keyset iteration
returns `[c8F1, c8F2]` and then, feeding `last_id = 100`, queries
`amount > 100` and finds nothing: the qualifying row `c8F3` is skipped,
because the v3 query orders by the sort column alone with no `fund_id`
tie-break. -/
theorem c8_counterexample :
    keysetIterate c8Users c8Funds [3] [] [] 2 "amount" 5 0 = [c8F1, c8F2] ∧
      (c8F3 ∈ c8Funds ∧ dimMatch [3] [] [] c8F3 ∧
        handlerJoins c8Users c8F3) ∧
      c8F3 ∉ keysetIterate c8Users c8Funds [3] [] [] 2 "amount" 5 0 := by
  refine ⟨by decide, ⟨by decide, by decide, by decide⟩, by decide⟩

/-- Witness for the C8 amended theorem: three funds with distinct ids,
`page_size = 2`, fuel 2. -/
theorem c8_keyset_unique_key_witness :
    keysetIterate c8Users [⟨1, 3, 11, 21, 5⟩, ⟨2, 3, 12, 22, 4⟩,
        ⟨3, 3, 13, 23, 3⟩] [3] [] [] 2 "fund_id" 2 0 =
      pySortBy (sortKeyOf "fund_id") false
        (([⟨1, 3, 11, 21, 5⟩, ⟨2, 3, 12, 22, 4⟩,
          ⟨3, 3, 13, 23, 3⟩] : List Fund).filter
          (fun f => dimMatch [3] [] [] f ∧ handlerJoins c8Users f)) ∧
    ((pySortBy (sortKeyOf "fund_id") false
        (([⟨1, 3, 11, 21, 5⟩, ⟨2, 3, 12, 22, 4⟩,
          ⟨3, 3, 13, 23, 3⟩] : List Fund).filter
          (fun f => dimMatch [3] [] [] f ∧ handlerJoins c8Users f))).map
      (·.fund_id)).Nodup ∧
    (∀ f, f ∈ pySortBy (sortKeyOf "fund_id") false
        (([⟨1, 3, 11, 21, 5⟩, ⟨2, 3, 12, 22, 4⟩,
          ⟨3, 3, 13, 23, 3⟩] : List Fund).filter
          (fun f => dimMatch [3] [] [] f ∧ handlerJoins c8Users f)) ↔
      f ∈ ([⟨1, 3, 11, 21, 5⟩, ⟨2, 3, 12, 22, 4⟩,
        ⟨3, 3, 13, 23, 3⟩] : List Fund) ∧ dimMatch [3] [] [] f ∧
        handlerJoins c8Users f) :=
  c8_keyset_unique_key c8Users
    [⟨1, 3, 11, 21, 5⟩, ⟨2, 3, 12, 22, 4⟩, ⟨3, 3, 13, 23, 3⟩] [3] [] [] 2 2
    (by decide) (by decide) (by decide) (by decide)

end FinancePerm
